import Mathlib

/-!
# Verification of the plexio ID-resolution and stream-proxy subsystem

A shallow embedding, in Lean, of the query-string machinery, the streaming
proxy, the identifier resolver and the stream-URL builder of the `plexio`
repository, together with proofs of the specification claims about them.

Python strings are modelled as `List Char` in the URL layer (where
percent-encoding works character by character and the theorems restrict the
interesting statements to ASCII inputs) and as `String` in the resolver layer.
-/

namespace Plexio

/-! ## Characters and percent-encoding (model of `urllib.parse` codecs)

These model the exact Python functions used by the repository:
`quote` (with its default `safe='/'`) in `models/plex.py` line 187,
`urlencode`/`quote_plus` in line 186, and `parse_qs`/`unquote_plus` in
`routers/addon.py` line 202.  On ASCII text Python's byte-level UTF-8 codec
is the identity, which is what the character-by-character model captures. -/

def hexDigits : List Char :=
  ['0', '1', '2', '3', '4', '5', '6', '7', '8', '9', 'A', 'B', 'C', 'D', 'E', 'F']

def hexDigitChar (n : Nat) : Char := hexDigits.getD n '0'

def hexVal (c : Char) : Option Nat :=
  if c.isDigit then some (c.toNat - 48)
  else if 'A' ≤ c ∧ c ≤ 'F' then some (c.toNat - 55)
  else if 'a' ≤ c ∧ c ≤ 'f' then some (c.toNat - 87)
  else none

/-- One character as a percent-escape, as Python `quote` emits for ASCII input. -/
def pctEncode (c : Char) : List Char :=
  ['%', hexDigitChar (c.toNat / 16), hexDigitChar (c.toNat % 16)]

/-- The characters `urllib.parse` never escapes: ASCII alphanumerics and `_.-~`. -/
def alwaysSafe (c : Char) : Bool :=
  c.isAlphanum || c == '_' || c == '.' || c == '-' || c == '~'

/-- `urllib.parse.quote` on one character, with the default `safe='/'`. -/
def quoteChar (c : Char) : List Char :=
  if alwaysSafe c || c == '/' then [c] else pctEncode c

/-- `urllib.parse.quote` with the default `safe='/'`. -/
def quote (s : List Char) : List Char := s.flatMap quoteChar

/-- `urllib.parse.quote_plus` on one character: space becomes `'+'`, no safe chars. -/
def quotePlusChar (c : Char) : List Char :=
  if alwaysSafe c then [c] else if c == ' ' then ['+'] else pctEncode c

/-- `urllib.parse.quote_plus`, the default key/value codec of `urlencode`. -/
def quotePlus (s : List Char) : List Char := s.flatMap quotePlusChar

/-- `urllib.parse.unquote` on ASCII text: `'%'` followed by two hex digits decodes
to the corresponding character, anything else passes through unchanged. -/
def unquote : List Char → List Char
  | [] => []
  | '%' :: h1 :: h2 :: rest =>
    match hexVal h1, hexVal h2 with
    | some a, some b => Char.ofNat (16 * a + b) :: unquote rest
    | _, _ => '%' :: unquote (h1 :: h2 :: rest)
  | c :: rest => c :: unquote rest

/-- The `'+'`-to-space preprocessing of `unquote_plus`. -/
def plusToSpace (c : Char) : Char := if c == '+' then ' ' else c

/-- `urllib.parse.unquote_plus`: `'+'` means space, then percent-decode. -/
def unquotePlus (s : List Char) : List Char :=
  unquote (s.map plusToSpace)

/-! ## Splitting and joining -/

/-- Python `str.split(sep)` with a one-character separator (`''.split(sep) == ['']`). -/
def splitSep (sep : Char) : List Char → List (List Char)
  | [] => [[]]
  | c :: rest =>
    match splitSep sep rest with
    | [] => [[]]
    | g :: gs => if c == sep then [] :: g :: gs else (c :: g) :: gs

/-- Python `s.split('=', 1)`: split at the first `'='`; `none` when absent. -/
def splitFirstEq : List Char → Option (List Char × List Char)
  | [] => none
  | c :: rest =>
    if c == '=' then some ([], rest)
    else (splitFirstEq rest).map fun p => (c :: p.1, p.2)

/-- Python `sep.join` with a one-character separator. -/
def joinSep (sep : Char) : List (List Char) → List Char
  | [] => []
  | [x] => x
  | x :: xs => x ++ sep :: joinSep sep xs

/-! ## `parse_qs` (as called with `keep_blank_values=True`) -/

/-- `urllib.parse.parse_qsl(qs, keep_blank_values=True)`: split the string on
`'&'`, skip empty fields, split each field at its first `'='` (missing `'='`
yields a blank value), and `unquote_plus` names and values. -/
def parse_qsl (qs : List Char) : List (List Char × List Char) :=
  (splitSep '&' qs).filterMap fun field =>
    if field.isEmpty then none
    else
      match splitFirstEq field with
      | some p => some (unquotePlus p.1, unquotePlus p.2)
      | none => some (unquotePlus field, [])

/-- Append one parsed pair to the grouped multi-dict, preserving Python dict
insertion order: an existing key keeps its position and gains a value. -/
def addPair (k v : List Char) :
    List (List Char × List (List Char)) → List (List Char × List (List Char))
  | [] => [(k, [v])]
  | (k', vs) :: rest =>
    if k' == k then (k', vs ++ [v]) :: rest else (k', vs) :: addPair k v rest

/-- `urllib.parse.parse_qs(qs, keep_blank_values=True)`. -/
def parse_qs (qs : List Char) : List (List Char × List (List Char)) :=
  (parse_qsl qs).foldl (fun acc p => addPair p.1 p.2 acc) []

/-! ## Association-list dictionary operations -/

/-- Python dict assignment `d[k] = v`: replace in place, append when absent. -/
def setKey [BEq κ] (k : κ) (v : α) : List (κ × α) → List (κ × α)
  | [] => [(k, v)]
  | (k', v') :: rest => if k' == k then (k, v) :: rest else (k', v') :: setKey k v rest

/-- Python dict lookup `d.get(k)`. -/
def lookupKey [BEq κ] (k : κ) : List (κ × α) → Option α
  | [] => none
  | (k', v) :: rest => if k' == k then some v else lookupKey k rest

/-! ## The proxy's target-URL construction (`routers/addon.py` lines 198-205) -/

def xPlexToken : List Char := "X-Plex-Token".toList

/-- Python `q.lstrip('/')`. -/
def lstripSlash : List Char → List Char
  | '/' :: rest => lstripSlash rest
  | s => s

/-- Lines 198-199: `if not q or not q.startswith('/'): q = '/' + q.lstrip('/')`. -/
def coerceQ (q : List Char) : List Char :=
  match q with
  | '/' :: _ => q
  | _ => '/' :: lstripSlash q

/-- Line 200: `path_part = q.split('?')[0].lstrip('/')`. -/
def path_part (q : List Char) : List Char :=
  lstripSlash (q.takeWhile fun c => c != '?')

/-- Line 201: `query_part = q.split('?', 1)[1] if '?' in q else ''`. -/
def query_part (q : List Char) : List Char :=
  match q.dropWhile (fun c => c != '?') with
  | [] => []
  | _ :: rest => rest

/-- Lines 202-203: parse the (already coerced) `q`'s query with blank values kept
and overwrite the `X-Plex-Token` key with the configured access token. -/
def proxy_params (token : List Char) (q' : List Char) :
    List (List Char × List (List Char)) :=
  setKey xPlexToken [token] (parse_qs (query_part q'))

/-- Line 204: `flat = (k: v[0] for k, v in params.items())` - every multivalue is
flattened to its first element.  All values produced by `parse_qs` (and the
injected token value) are nonempty lists, so `headD` never takes its default. -/
def flattenParams (params : List (List Char × List (List Char))) :
    List (List Char × List Char) :=
  params.map fun p => (p.1, p.2.headD [])

/-- Line 205: the target URL `(configuration.streaming_url / path_part).with_query(flat)`,
represented by its path and query relative to the configured streaming base. -/
structure ProxyTarget where
  path : List Char
  query : List (List Char × List Char)
deriving DecidableEq, Repr

/-- The complete target-URL computation of `proxy_to_plex`, lines 198-205. -/
def proxy_target (token : List Char) (q : List Char) : ProxyTarget :=
  let q' := coerceQ q
  ProxyTarget.mk (path_part q') (flattenParams (proxy_params token q'))

/-- Replace the value lists at the token key by `[]`, keeping presence and
position: two raw `q` strings "differ only in client-supplied token values"
exactly when their parsed queries agree after this masking. -/
def maskToken (params : List (List Char × List (List Char))) :
    List (List Char × List (List Char)) :=
  params.map fun p => if p.1 == xPlexToken then (p.1, ([] : List (List Char))) else p

/-! ## The stream-URL builder's proxy rewrite (`models/plex.py` lines 180-187) -/

/-- A parsed origin URL - its decoded path and its unique-key query dict.  This
is the view of a `yarl.URL` value that `_stream_url` consumes via `plex_url.path`
and `dict(plex_url.query)`. -/
structure PlexUrl where
  path : List Char
  query : List (List Char × List Char)
deriving DecidableEq, Repr

/-- `urllib.parse.urlencode` with its default `quote_via=quote_plus`. -/
def urlencode (q : List (List Char × List Char)) : List Char :=
  joinSep '&' (q.map fun p => quotePlus p.1 ++ '=' :: quotePlus p.2)

/-- `_stream_url` lines 184-186: drop the `X-Plex-Token` query key (`qdict.pop`)
and re-encode the remaining relative path+query. -/
def stream_url_relative (u : PlexUrl) : List Char :=
  u.path ++
    (if (u.query.filter fun p => p.1 != xPlexToken).isEmpty then []
     else '?' :: urlencode (u.query.filter fun p => p.1 != xPlexToken))

/-- Line 187: the value placed after `'?q=' + quote(relative)` in the rewritten
stream URL (proxy-rewrite mode). -/
def stream_url_q (u : PlexUrl) : List Char := quote (stream_url_relative u)

/-- The `q` value as the proxy handler then receives it: the web framework
percent-decodes (`unquote_plus`) the query-string value of the rewritten URL. -/
def receivedQ (u : PlexUrl) : List Char := unquotePlus (stream_url_q u)

/-! ## The proxy GET body stream (`routers/addon.py` lines 231-260)

The GET branch issues the upstream request without a context manager, releases
the connection at once on an upstream error status, and otherwise returns a
`StreamingResponse` over the generator `stream_body`, whose `try/finally`
releases the connection when the 64 KiB-chunked iteration ends - either because
the body is drained or because the client disconnects and the generator is
closed at its suspension point.  The embedding records that control flow as an
event trace; `consumed` is the number of chunks the client accepts before
disconnecting (any value at least the number of available chunks means the
stream was fully drained). -/

inductive ProxyEvent
  | requestGet
  | releaseConn
  | yieldChunk (chunk : List Nat)
  | errorReturn (status : Nat)
deriving DecidableEq, Repr

/-- `resp.content.iter_chunked(64 * 1024)`: the upstream body (a byte list)
split into successive chunks of at most 64 KiB. -/
def chunk64 : List Nat → List (List Nat)
  | [] => []
  | b :: rest => (b :: rest).take 65536 :: chunk64 ((b :: rest).drop 65536)
termination_by l => l.length
decreasing_by simp only [List.length_drop, List.length_cons]; omega

/-- The event trace of `proxy_to_plex`'s GET branch (lines 235-260): on
upstream status >= 400, release then report the upstream error (lines 238-241);
otherwise yield the chunks the client accepts and release in the generator's
`finally` (lines 249-254). -/
def proxyGetTrace (status : Nat) (body : List Nat) (consumed : Nat) :
    List ProxyEvent :=
  if 400 ≤ status then
    [ProxyEvent.requestGet, ProxyEvent.releaseConn, ProxyEvent.errorReturn status]
  else
    ProxyEvent.requestGet ::
      (((chunk64 body).take consumed).map ProxyEvent.yieldChunk ++
        [ProxyEvent.releaseConn])

/-- The chunks delivered to the client, in order, as read off a trace. -/
def yieldedChunks (tr : List ProxyEvent) : List (List Nat) :=
  tr.filterMap fun e =>
    match e with
    | ProxyEvent.yieldChunk c => some c
    | _ => none

/-! ## The identifier resolver (`plex/media_server_api.py`, `plex/utils.py`)

The resolver is embedded as a state monad over a scripted origin: the state
carries the scripted outcomes of the successive origin HTTP calls, a log of the
requests issued, and the cache contents.  Python exceptions are the error
channel; `except Exception` blocks catch everything except the
`BaseException`-derived `PlexUnauthorizedError`. -/

/-- Python exception classes raised in the resolver.  `unauthorized` models
`PlexUnauthorizedError`, which subclasses `BaseException` (`plex/utils.py` line
13).  Everything else subclasses `Exception`: fastapi's `HTTPException`
carrying a gateway status as re-raised by `get_json` (this also stands for its
JSON-decode and empty-body failures, which are likewise ordinary exceptions),
`KeyError`/`IndexError`/pydantic validation errors from JSON-shape mismatches,
and the stub-exhaustion artifact of the scripted origin. -/
inductive PyErr
  | unauthorized
  | httpError (status : Nat)
  | keyError
  | scriptEnd
deriving DecidableEq, Repr

/-- Whether `except Exception` catches the raised error: everything except
`PlexUnauthorizedError`, which derives from `BaseException` only. -/
def PyErr.isException : PyErr → Bool
  | PyErr.unauthorized => false
  | _ => true

/-- One entry of an item's secondary-identifier list (`item.get('Guid', [])`),
read with `guid_obj.get('id', '')`. -/
structure GuidEntry where
  id : String := ""
deriving DecidableEq, Repr

/-- One metadata item, holding exactly the JSON fields the resolver reads.
Fields the Python code reads defensively (or whose absence raises) are
`Option`s. -/
structure MetaItem where
  guid : Option String := none
  key : Option String := none
  type : Option String := none
  ratingKey : Option String := none
  title : Option String := none
  Guid : List GuidEntry := []
  index : Option Int := none
  parentIndex : Option Int := none
deriving DecidableEq, Repr

/-- One library-section directory entry (`MediaContainer.Directory`). -/
structure SectionDir where
  type : Option String := none
  key : Option String := none
deriving DecidableEq, Repr

/-- The `MediaContainer` JSON envelope returned by every origin endpoint, with
the defaults the `.get(...)` reads supply. -/
structure MediaContainer where
  Metadata : List MetaItem := []
  Directory : List SectionDir := []
  totalSize : Nat := 0
deriving DecidableEq, Repr

/-- The outcome of one origin HTTP call, as classified by `get_json`
(`plex/utils.py` lines 17-74): a 2xx JSON body, a 401/403 (which raises
`PlexUnauthorizedError`, line 28), or a transport/HTTP/parse failure, which
`get_json` raises as an ordinary exception carrying a gateway status. -/
inductive CallRes
  | ok (mc : MediaContainer)
  | unauth
  | transport (status : Nat)
deriving DecidableEq, Repr

/-- The origin request issued, recorded so that claims about which calls a run
makes can be stated. -/
inductive Req
  | matches (imdbId : String) (typeCode : Nat)
  | libraryAll (guid : String)
  | libraryMetadata (ratingKey : String)
  | librarySections
  | sectionAll (sectionId : String) (start : Nat)
  | allLeaves (key : String)
deriving DecidableEq, Repr

/-- Interpreter state: the scripted origin responses still to be served, the
log of issued requests, and the cache contents. -/
structure St where
  script : List CallRes
  log : List Req
  cache : List (String × String)
deriving DecidableEq, Repr

/-- A computation outcome: Python code either returns a value or raises, and in
both cases the world (remaining script, log, cache) has advanced. -/
inductive Res (α : Type)
  | ok (a : α) (s : St)
  | err (e : PyErr) (s : St)
deriving DecidableEq, Repr

def M (α : Type) : Type := St → Res α

def M.pure (a : α) : M α := fun s => Res.ok a s

def M.bind (m : M α) (f : α → M β) : M β := fun s =>
  match m s with
  | Res.ok a s' => f a s'
  | Res.err e s' => Res.err e s'

instance : Monad M where
  pure := M.pure
  bind := M.bind

def M.throw (e : PyErr) : M α := fun s => Res.err e s

/-- Python `try ... except Exception: handler`: `Exception` subclasses are
caught, `BaseException`-only errors propagate.  State changes made before the
raise are kept (Python does not roll back side effects). -/
def tryCatchExc (m : M α) (handler : M α) : M α := fun s =>
  match m s with
  | Res.ok a s' => Res.ok a s'
  | Res.err e s' => if e.isException then handler s' else Res.err e s'

/-- `get_json` against the scripted origin: serve the next scripted outcome,
recording the request.  An exhausted script is a stub artifact reported as an
ordinary exception. -/
def getJson (r : Req) : M MediaContainer := fun s =>
  match s.script with
  | [] => Res.err PyErr.scriptEnd (St.mk [] (s.log ++ [r]) s.cache)
  | c :: rest =>
    match c with
    | CallRes.ok mc => Res.ok mc (St.mk rest (s.log ++ [r]) s.cache)
    | CallRes.unauth => Res.err PyErr.unauthorized (St.mk rest (s.log ++ [r]) s.cache)
    | CallRes.transport st =>
      Res.err (PyErr.httpError st) (St.mk rest (s.log ++ [r]) s.cache)

inductive PlexMediaType
  | show
  | movie
  | episode
deriving DecidableEq, Repr

/-- The fields of a validated `PlexMediaMeta` that the resolver's control flow
reads (`guid`, `key`); pydantic requires `guid`, `type` and `title` and
validates `type` against the `PlexMediaType` enum. -/
structure PlexMediaMeta where
  guid : String
  type : PlexMediaType
  title : String
  key : Option String
deriving DecidableEq, Repr

def parseMediaType (t : String) : Option PlexMediaType :=
  if t = "show" then some PlexMediaType.show
  else if t = "movie" then some PlexMediaType.movie
  else if t = "episode" then some PlexMediaType.episode
  else none

/-- `PlexMediaMeta(**metadata)`: pydantic raises an ordinary exception when a
required field is missing or the type is not a valid `PlexMediaType`. -/
def validateMediaMeta (m : MetaItem) : M PlexMediaMeta :=
  match m.guid, m.type, m.title with
  | some g, some t, some ti =>
    match parseMediaType t with
    | some mt => M.pure (PlexMediaMeta.mk g mt ti m.key)
    | none => M.throw PyErr.keyError
  | _, _, _ => M.throw PyErr.keyError

/-- The per-section loop body of `get_media` (`media_server_api.py` lines
117-131): skip sections of other types, fetch `library/metadata/<ratingKey>`,
take `Metadata[0]` (raising when empty) and validate it; `get_only_first`
breaks after the first appended item. -/
def getMediaLoop (getOnlyFirst : Bool) :
    List MetaItem → List PlexMediaMeta → M (List PlexMediaMeta)
  | [], acc => M.pure acc
  | sec :: rest, acc => do
    match sec.type with
    | none => M.throw PyErr.keyError
    | some t =>
      if t = "show" ∨ t = "movie" ∨ t = "episode" then do
        let rk ← match sec.ratingKey with
          | none => M.throw PyErr.keyError
          | some rk => M.pure rk
        let j2 ← getJson (Req.libraryMetadata rk)
        let md ← match j2.Metadata with
          | [] => M.throw PyErr.keyError
          | m :: _ => M.pure m
        let mm ← validateMediaMeta md
        if getOnlyFirst then M.pure (acc ++ [mm])
        else getMediaLoop getOnlyFirst rest (acc ++ [mm])
      else getMediaLoop getOnlyFirst rest acc

/-- `get_media` (`media_server_api.py` lines 99-132). -/
def get_media (guid : String) (getOnlyFirst : Bool) : M (List PlexMediaMeta) := do
  let j ← getJson (Req.libraryAll guid)
  getMediaLoop getOnlyFirst j.Metadata []

structure PlexEpisodeMeta where
  guid : String
  title : String
  index : Int
  parentIndex : Int
deriving DecidableEq, Repr

/-- `PlexEpisodeMeta(**meta)` for each enumerated item after
`meta.setdefault('index', i)` (`media_server_api.py` lines 151-153);
`parent_index` defaults to 0, `guid` and `title` are required. -/
def validateEpisodes : List MetaItem → Nat → M (List PlexEpisodeMeta)
  | [], _ => M.pure []
  | m :: rest, i =>
    match m.guid, m.title with
    | some g, some t => do
      let eps ← validateEpisodes rest (i + 1)
      M.pure (PlexEpisodeMeta.mk g t (m.index.getD (Int.ofNat i))
        (m.parentIndex.getD 0) :: eps)
    | _, _ => M.throw PyErr.keyError

/-- `get_all_episodes` (`media_server_api.py` lines 135-154); slicing `key[1:]`
on a `None` key raises an ordinary exception. -/
def get_all_episodes (key : Option String) : M (List PlexEpisodeMeta) := do
  let k ← match key with
    | none => M.throw PyErr.keyError
    | some k => M.pure k
  let j ← getJson (Req.allLeaves k)
  validateEpisodes j.Metadata 0

/-- The scan inside `get_episode_guid` (lines 299-301): the first episode whose
stringified season and episode indices match the parsed strings. -/
def findEpisode (season episode : String) : List PlexEpisodeMeta → Option String
  | [] => none
  | e :: rest =>
    if toString e.parentIndex = season ∧ toString e.index = episode then some e.guid
    else findEpisode season episode rest

/-- `get_episode_guid` (lines 284-301): returns `None` (falls off the end) when
no episode matches. -/
def get_episode_guid (showKey : Option String) (season episode : String) :
    M (Option String) := do
  let eps ← get_all_episodes showKey
  M.pure (findEpisode season episode eps)

/-- The three candidate GUID encodings (lines 197-201). -/
def guidFormats (imdbId : String) : List String :=
  ["com.plexapp.agents.imdb://" ++ imdbId ++ "?lang=en",
   "imdb://" ++ imdbId,
   "imdb-" ++ imdbId]

/-- Lines 203-217: try each GUID format in order with a per-iteration
`except Exception: continue`; a nonempty result returns its first item's guid. -/
def tryFormats : List String → M (Option String)
  | [] => M.pure none
  | g :: rest => do
    let r ← tryCatchExc
      (do
        let media ← get_media g true
        match media with
        | [] => M.pure none
        | m :: _ => M.pure (some m.guid))
      (M.pure none)
    match r with
    | some found => M.pure (some found)
    | none => tryFormats rest

/-- Lines 229-234: keep only movie/show sections matching the requested type. -/
def relevantSection (mediaType : PlexMediaType) (sec : SectionDir) : Bool :=
  (sec.type == some "movie" || sec.type == some "show") &&
    ((mediaType == PlexMediaType.movie && sec.type == some "movie") ||
      (mediaType == PlexMediaType.show && sec.type == some "show"))

/-- Lines 259-269: scan one page's items' secondary identifiers for an exact
`imdb://<id>` match; a hit returns `item.get('guid', item.get('key', ''))`. -/
def findImdbItem (imdbId : String) : List MetaItem → Option String
  | [] => none
  | item :: rest =>
    if item.Guid.any fun g => g.id == "imdb://" ++ imdbId then
      some (item.guid.getD (item.key.getD ""))
    else findImdbItem imdbId rest

/-- Lines 242-275, the `while True` pagination loop over one section (page size
100, stop on an empty page or when `start + len >= totalSize`).  The fuel only
bounds the recursion: callers pass one more than the script length and every
iteration consumes a scripted response, so the fuel-exhaustion branch (reported
as the stub artifact) is unreachable. -/
def scanPages (sectionId imdbId : String) : Nat → Nat → M (Option String)
  | 0, _ => M.throw PyErr.scriptEnd
  | fuel + 1, start => do
    let j ← getJson (Req.sectionAll sectionId start)
    if j.Metadata.isEmpty then M.pure none
    else
      match findImdbItem imdbId j.Metadata with
      | some found => M.pure (some found)
      | none =>
        if j.totalSize ≤ start + j.Metadata.length then M.pure none
        else scanPages sectionId imdbId fuel (start + 100)

/-- Run a fuel computation with fuel one more than the current script length. -/
def withScriptFuel (f : Nat → M α) : M α := fun s => f (s.script.length + 1) s

/-- Lines 237-275: scan each relevant section in order (`section['key']` is a
bracket access). -/
def scanSections (imdbId : String) : List SectionDir → M (Option String)
  | [] => M.pure none
  | sec :: rest => do
    let sid ← match sec.key with
      | none => M.throw PyErr.keyError
      | some k => M.pure k
    let r ← withScriptFuel fun fuel => scanPages sid imdbId fuel 0
    match r with
    | some found => M.pure (some found)
    | none => scanSections imdbId rest

/-- Stage A, lines 173-189: the metadata-matching call; a positive `totalSize`
returns `Metadata[0]['guid']` (bracket accesses that may raise). -/
def stageA (imdbId : String) (typeCode : Nat) : M (Option String) := do
  let j ← getJson (Req.matches imdbId typeCode)
  if 0 < j.totalSize then
    match j.Metadata with
    | [] => M.throw PyErr.keyError
    | item :: _ =>
      match item.guid with
      | none => M.throw PyErr.keyError
      | some g => M.pure (some g)
  else M.pure none

/-- Stage B, lines 195-275 (the body of the outer `try`): the three GUID
formats, then the full per-section scan. -/
def stageB (imdbId : String) (mediaType : PlexMediaType) : M (Option String) := do
  let r1 ← tryFormats (guidFormats imdbId)
  match r1 with
  | some found => M.pure (some found)
  | none => do
    let sectionsJson ← getJson Req.librarySections
    scanSections imdbId (sectionsJson.Directory.filter (relevantSection mediaType))

/-- `imdb_to_plex_id` (lines 157-281).  `matchingTokenSetting` models
`settings.plex_matching_token` (the module-level settings object, absent from
`src/`, passed explicitly); `hasUrl` models whether the optional `url` argument
was provided.  The numeric type code is 1 for movies and 2 otherwise (line
180); `matching_token = settings.plex_matching_token or token` and the two
`if` truthiness tests are on string emptiness. -/
def imdb_to_plex_id (matchingTokenSetting token : String) (hasUrl : Bool)
    (imdbId : String) (mediaType : PlexMediaType) : M (Option String) := do
  let matchingToken := if matchingTokenSetting = "" then token else matchingTokenSetting
  let a ←
    if matchingToken = "" then M.pure none
    else
      tryCatchExc (stageA imdbId (if mediaType = PlexMediaType.movie then 1 else 2))
        (M.pure none)
  match a with
  | some found => M.pure (some found)
  | none =>
    if hasUrl then tryCatchExc (stageB imdbId mediaType) (M.pure none)
    else M.pure none

/-- The cache collaborator's `get` (`redis` read; not an origin call). -/
def cacheGet (k : String) : M (Option String) := fun s =>
  Res.ok (lookupKey k s.cache) s

/-- The cache collaborator's `set`. -/
def cacheSet (k v : String) : M Unit := fun s =>
  Res.ok () (St.mk s.script s.log (setKey k v s.cache))

/-- Python `stremio_id.split(':')`. -/
def splitColonStr (s : String) : List String :=
  (splitSep ':' s.toList).map fun l => String.mk l

/-- Lines 342-354: `for meta in media: plex_id = get_episode_guid(...); if
plex_id: break` with a `for ... else: return None`; the break condition is
truthiness, so an empty or `None` episode guid continues the loop. -/
def episodeLoop (season episode : String) : List PlexMediaMeta → M (Option String)
  | [] => M.pure none
  | meta :: rest => do
    let eid? ← get_episode_guid meta.key season episode
    match eid? with
    | some e => if e = "" then episodeLoop season episode rest else M.pure (some e)
    | none => episodeLoop season episode rest

/-- Lines 324-358 of `stremio_to_plex_id`, after the show-arity parse: the
two-stage lookup (the route handler always passes `url`, so `hasUrl` is true),
the falsy-result check, the episode stage for shows, and the conditional cache
write before returning.  `seasonEpisode` carries the parsed season/episode for
the show case. -/
def stremioAfterParse (matchingTokenSetting token stremioId imdbId : String)
    (seasonEpisode : Option (String × String)) (mediaType : PlexMediaType) :
    M (Option String) := do
  let plexId? ← imdb_to_plex_id matchingTokenSetting token true imdbId mediaType
  match plexId? with
  | none => M.pure none
  | some plexId =>
    if plexId = "" then M.pure none
    else do
      let finalId? ←
        match seasonEpisode with
        | some (season, episode) => do
          let media ← get_media plexId false
          episodeLoop season episode media
        | none => M.pure (some plexId)
      match finalId? with
      | none => M.pure none
      | some fid => do
        if fid = "" then M.pure () else cacheSet stremioId fid
        M.pure (some fid)

/-- `stremio_to_plex_id` after the cache probe (lines 316-358): show-arity
parsing, then `stremioAfterParse`. -/
def stremioResolveUncached (matchingTokenSetting token stremioId : String)
    (mediaType : PlexMediaType) : M (Option String) := do
  let parse : Option (String × Option (String × String)) :=
    if mediaType = PlexMediaType.show then
      match splitColonStr stremioId with
      | [i, se, ep] => some (i, some (se, ep))
      | _ => none
    else some (stremioId, none)
  match parse with
  | none => M.pure none
  | some (imdbId, seasonEpisode) =>
    stremioAfterParse matchingTokenSetting token stremioId imdbId seasonEpisode
      mediaType

/-- `stremio_to_plex_id` (lines 304-358): the walrus cache probe is a
truthiness test, so a cached empty string does not short-circuit. -/
def stremio_to_plex_id (matchingTokenSetting token stremioId : String)
    (mediaType : PlexMediaType) : M (Option String) := do
  let cached ← cacheGet stremioId
  match cached with
  | some v =>
    if v = "" then stremioResolveUncached matchingTokenSetting token stremioId mediaType
    else M.pure (some v)
  | none => stremioResolveUncached matchingTokenSetting token stremioId mediaType

/-! ## The stream-URL builder (`models/plex.py`, `get_stremio_streams`)

The embedding covers the candidate streams the builder emits - their kind,
origin URL and `bingeGroup` quality description.  The user-facing
`name`/`description` strings (lines 202-302), which involve floating-point
file-size formatting and flag emoji, are not part of the candidate model, and
the `_stream_url` proxy rewrite applied to each URL is studied separately with
the round-trip claims. -/

inductive Resolution
  | R480
  | R720
  | R1080
deriving DecidableEq, Repr

structure QualityParams where
  name : String
  minWidth : Nat
  videoQuality : String
  maxVideoBitrate : String
  videoResolution : String
deriving DecidableEq, Repr

/-- `RESOLUTION_QUALITY_PARAMS` (`models/plex.py` lines 19-47); the numeric
parameters 100, 10, 6.5 and 3.5 are recorded as the strings they serialize to
in a query, and the 480p entry keeps the source's `'640×480'` (with the
multiplication sign) verbatim. -/
def RESOLUTION_QUALITY_PARAMS : Resolution → QualityParams
  | Resolution.R1080 => QualityParams.mk "1080p" 1920 "100" "10" "1920x1080"
  | Resolution.R720 => QualityParams.mk "720p" 1280 "100" "6.5" "1280x720"
  | Resolution.R480 => QualityParams.mk "480p" 640 "100" "3.5" "640×480"

inductive StreamKind
  | directPlay
  | transcodeOriginal
  | transcodeDown (q : Resolution)
  | plexTv
deriving DecidableEq, Repr

/-- An origin URL relative to `configuration.streaming_url`: path and query.
For the external plex.tv candidate the absolute external URL is stored in
`path` with an empty query. -/
structure OriginUrl where
  path : String
  query : List (String × String)
deriving DecidableEq, Repr

/-- One emitted playback candidate with its `behaviorHints.bingeGroup` quality
description (empty for the external candidate, which carries none). -/
structure StreamCandidate where
  kind : StreamKind
  url : OriginUrl
  bingeGroup : String
deriving DecidableEq, Repr

/-- `yarl`'s `url % args` (`update_query`): each new pair replaces an existing
key in place or is appended. -/
def updateQuery (base upd : List (String × String)) : List (String × String) :=
  upd.foldl (fun acc p => setKey p.1 p.2 acc) base

/-- One entry of `self.media` with the fields the candidate construction reads:
`media['width']`, `media['Part'][0]['key']` and the video resolution used in
the `bingeGroup` text. -/
structure MediaEntry where
  width : Nat
  partKey : String
  videoResolution : String
deriving DecidableEq, Repr

structure BuilderConfig where
  accessToken : String
  includeTranscodeOriginal : Bool
  includeTranscodeDown : Bool
  transcodeDownQualities : List Resolution
  includePlexTv : Bool
deriving DecidableEq, Repr

/-- The transcode base URL (lines 320-333). -/
def transcodeUrl (cfg : BuilderConfig) (selfKey : String) (i : Nat) : OriginUrl :=
  OriginUrl.mk "video/:/transcode/universal/start.m3u8"
    [("path", selfKey), ("mediaIndex", toString i), ("protocol", "hls"),
     ("fastSeek", "1"), ("copyts", "1"), ("autoAdjustQuality", "0"),
     ("X-Plex-Platform", "Chrome"), ("X-Plex-Token", cfg.accessToken)]

/-- The transcode-down candidate for one target resolution (the emission of
lines 353-362): the transcode URL updated with the table's `plex_args`, and
the `Transcode <name>` quality description. -/
def transcodeDownCandidate (cfg : BuilderConfig) (selfKey : String) (i : Nat)
    (q : Resolution) : StreamCandidate :=
  let qp := RESOLUTION_QUALITY_PARAMS q
  StreamCandidate.mk (StreamKind.transcodeDown q)
    (OriginUrl.mk (transcodeUrl cfg selfKey i).path
      (updateQuery (transcodeUrl cfg selfKey i).query
        [("videoQuality", qp.videoQuality),
         ("maxVideoBitrate", qp.maxVideoBitrate),
         ("videoResolution", qp.videoResolution)]))
    ("Transcode " ++ qp.name)

/-- Lines 348-362: the transcode-down candidates for one media entry - for each
configured quality, skip when `media['width'] <= min_width`, otherwise emit
its candidate. -/
def transcodeDownStreams (cfg : BuilderConfig) (selfKey : String) (i : Nat)
    (media : MediaEntry) : List StreamCandidate :=
  cfg.transcodeDownQualities.filterMap fun q =>
    if media.width ≤ (RESOLUTION_QUALITY_PARAMS q).minWidth then none
    else some (transcodeDownCandidate cfg selfKey i q)

/-- The candidate streams for one `media` entry (lines 304-371): always a
direct-play candidate over `media['Part'][0]['key'][1:]`, then optionally the
transcode-original, transcode-down and plex.tv candidates. -/
def mediaStreams (cfg : BuilderConfig) (selfKey selfGuid : String) (i : Nat)
    (media : MediaEntry) : List StreamCandidate :=
  [StreamCandidate.mk StreamKind.directPlay
      (OriginUrl.mk (media.partKey.drop 1) [("X-Plex-Token", cfg.accessToken)])
      ("Direct Play " ++ media.videoResolution)] ++
  (if cfg.includeTranscodeOriginal then
      [StreamCandidate.mk StreamKind.transcodeOriginal
        (OriginUrl.mk (transcodeUrl cfg selfKey i).path
          (updateQuery (transcodeUrl cfg selfKey i).query [("videoQuality", "100")]))
        ("Transcode " ++ media.videoResolution ++ " (original)")]
    else []) ++
  (if cfg.includeTranscodeDown then transcodeDownStreams cfg selfKey i media
    else []) ++
  (if cfg.includePlexTv && selfGuid.startsWith "plex:" then
      [StreamCandidate.mk StreamKind.plexTv
        (OriginUrl.mk
          ("https://app.plex.tv/#!/provider/tv.plex.provider.metadata/details?key=/library/metadata/" ++
            String.mk ((splitSep '/' selfGuid.toList).getLastD []))
          [])
        ""]
    else [])

/-- `get_stremio_streams` restricted to candidate emission: iterate over
`self.media` with its index (the `mediaIndex` of line 326). -/
def get_stremio_streams (cfg : BuilderConfig) (selfKey selfGuid : String)
    (mediaList : List MediaEntry) : List StreamCandidate :=
  (mediaList.enum.map fun p => mediaStreams cfg selfKey selfGuid p.1 p.2).flatten

/-- The transcode-down candidates of an emitted stream list. -/
def transcodeDownOf (l : List StreamCandidate) : List StreamCandidate :=
  l.filter fun c =>
    match c.kind with
    | StreamKind.transcodeDown _ => true
    | _ => false

/-! ## Auxiliary notions used by theorem statements -/

/-- The world state a computation ends in, whether it returned or raised. -/
def Res.state : Res α → St
  | Res.ok _ s => s
  | Res.err _ s => s

/-- ASCII text, where Python's byte-level codecs coincide with the
character-by-character model. -/
def asciiStr (s : List Char) : Prop := ∀ c ∈ s, c.toNat < 128

instance (s : List Char) : Decidable (asciiStr s) := by
  unfold asciiStr; infer_instance

/-! # Theorems -/

/-! ## Monad unfolding -/

theorem bind_def (m : M α) (f : α → M β) : m >>= f = M.bind m f := rfl

theorem bindOp_def (m : M α) (f : α → M β) : Bind.bind m f = M.bind m f := rfl

theorem pure_def (a : α) : (Pure.pure a : M α) = M.pure a := rfl

theorem bind_pure_apply (a : α) (f : α → M β) (s : St) :
    M.bind (M.pure a) f s = f a s := rfl

theorem bind_throw_apply (e : PyErr) (f : α → M β) (s : St) :
    M.bind (M.throw e) f s = Res.err e s := rfl

/-! ## The 64 KiB chunking (claim C4 support) -/

theorem chunk64_flatten_aux :
    ∀ (n : Nat) (l : List Nat), l.length ≤ n → (chunk64 l).flatten = l := by
  intro n
  induction n with
  | zero =>
    intro l h
    have : l = [] := List.eq_nil_of_length_eq_zero (Nat.le_zero.mp h)
    subst this
    simp [chunk64]
  | succ n ih =>
    intro l h
    match l with
    | [] => simp [chunk64]
    | b :: rest =>
      rw [chunk64]
      have hlen : ((b :: rest).drop 65536).length ≤ n := by
        simp only [List.length_drop, List.length_cons] at *
        omega
      simp only [List.flatten_cons, ih _ hlen, List.take_append_drop]

theorem chunk64_flatten (l : List Nat) : (chunk64 l).flatten = l :=
  chunk64_flatten_aux l.length l (Nat.le_refl _)

theorem chunk64_mem_length_aux :
    ∀ (n : Nat) (l c : List Nat), l.length ≤ n → c ∈ chunk64 l → c.length ≤ 65536 := by
  intro n
  induction n with
  | zero =>
    intro l c h hc
    have : l = [] := List.eq_nil_of_length_eq_zero (Nat.le_zero.mp h)
    subst this
    simp [chunk64] at hc
  | succ n ih =>
    intro l c h hc
    match l with
    | [] => simp [chunk64] at hc
    | b :: rest =>
      rw [chunk64] at hc
      rcases List.mem_cons.mp hc with h1 | h2
      · subst h1
        exact List.length_take_le 65536 (b :: rest)
      · exact ih _ c (by simp only [List.length_drop, List.length_cons] at *; omega) h2

theorem chunk64_mem_length {c : List Nat} {l : List Nat} (h : c ∈ chunk64 l) :
    c.length ≤ 65536 :=
  chunk64_mem_length_aux l.length l c (Nat.le_refl _) h

theorem yieldedChunks_success (body : List Nat) (consumed : Nat) :
    yieldedChunks (ProxyEvent.requestGet ::
        (((chunk64 body).take consumed).map ProxyEvent.yieldChunk ++
          [ProxyEvent.releaseConn])) = (chunk64 body).take consumed := by
  have hcomp : ((fun e =>
      match e with
      | ProxyEvent.yieldChunk c => some c
      | _ => none) ∘ ProxyEvent.yieldChunk) = some := rfl
  simp [yieldedChunks, List.filterMap_cons, List.filterMap_append]
  rw [← List.map_take, List.filterMap_map, hcomp]
  simp

/-- Claim C4: for every proxied GET, the upstream connection is released
exactly once; on upstream status at least 400 it is released before the
upstream-error result, and on success it is released only after the
64 KiB-chunked body stream is drained or the client disconnects - in the
event trace it is the last event, after all yields, the yielded chunks are
64 KiB-bounded, and a fully drained stream delivers exactly the upstream
body. -/
theorem claim4_release_once (status : Nat) (body : List Nat) (consumed : Nat) :
    (proxyGetTrace status body consumed).count ProxyEvent.releaseConn = 1 ∧
    (400 ≤ status →
      proxyGetTrace status body consumed =
        [ProxyEvent.requestGet, ProxyEvent.releaseConn,
         ProxyEvent.errorReturn status]) ∧
    (status < 400 →
      (proxyGetTrace status body consumed).getLast? = some ProxyEvent.releaseConn ∧
      (∀ c ∈ yieldedChunks (proxyGetTrace status body consumed), c.length ≤ 65536) ∧
      ((chunk64 body).length ≤ consumed →
        (yieldedChunks (proxyGetTrace status body consumed)).flatten = body)) := by
  refine ⟨?_, ?_, ?_⟩
  · by_cases h : 400 ≤ status
    · simp [proxyGetTrace, h, List.count_cons]
    · simp only [proxyGetTrace, if_neg h]
      rw [List.count_cons, List.count_append]
      have hz : (List.take consumed
          (List.map ProxyEvent.yieldChunk (chunk64 body))).count
          ProxyEvent.releaseConn = 0 := by
        rw [List.count_eq_zero]
        intro hmem
        have := List.mem_of_mem_take hmem
        simp at this
      simp [hz]
  · intro h
    simp [proxyGetTrace, h]
  · intro h
    have hn : ¬ 400 ≤ status := by omega
    refine ⟨?_, ?_, ?_⟩
    · simp only [proxyGetTrace, if_neg hn]
      rw [show (ProxyEvent.requestGet ::
          (((chunk64 body).take consumed).map ProxyEvent.yieldChunk ++
            [ProxyEvent.releaseConn])) =
          (ProxyEvent.requestGet ::
            ((chunk64 body).take consumed).map ProxyEvent.yieldChunk) ++
            [ProxyEvent.releaseConn] by simp]
      exact List.getLast?_concat _
    · intro c hc
      simp only [proxyGetTrace, if_neg hn, yieldedChunks_success] at hc
      exact chunk64_mem_length (List.mem_of_mem_take hc)
    · intro hfull
      simp only [proxyGetTrace, if_neg hn, yieldedChunks_success]
      rw [List.take_of_length_le hfull]
      exact chunk64_flatten body

theorem claim4_witness :
    proxyGetTrace 404 [1, 2] 5 =
      [ProxyEvent.requestGet, ProxyEvent.releaseConn, ProxyEvent.errorReturn 404] ∧
    (proxyGetTrace 200 [1, 2] 5).count ProxyEvent.releaseConn = 1 :=
  ⟨(claim4_release_once 404 [1, 2] 5).2.1 (by decide),
   (claim4_release_once 200 [1, 2] 5).1⟩

/-! ## Cache-hit short circuit (claim C6) -/

/-- Claim C6: for every external ID already cached (with the nonempty value
every cache write produces), `stremio_to_plex_id` returns the cached origin ID
immediately: the final state is the initial state, so no origin or
matching-service request is logged and the script is untouched. -/
theorem claim6_cache_hit (mts token stremioId : String) (mt : PlexMediaType)
    (s : St) (v : String) (hv : lookupKey stremioId s.cache = some v)
    (hne : v ≠ "") :
    stremio_to_plex_id mts token stremioId mt s = Res.ok (some v) s := by
  simp [stremio_to_plex_id, bind_def, M.bind, cacheGet, hv, hne, M.pure]

theorem claim6_witness :
    stremio_to_plex_id "" "t" "tt0111161" PlexMediaType.movie
      (St.mk [] [] [("tt0111161", "plex://movie/abc")]) =
    Res.ok (some "plex://movie/abc")
      (St.mk [] [] [("tt0111161", "plex://movie/abc")]) :=
  claim6_cache_hit "" "t" "tt0111161" PlexMediaType.movie
    (St.mk [] [] [("tt0111161", "plex://movie/abc")]) "plex://movie/abc"
    (by decide) (by decide)

/-! ## Malformed show IDs (claim C8) -/

/-- Claim C8: for every show-type external ID that does not split into exactly
three colon-separated segments, `stremio_to_plex_id` (on an uncached ID)
returns not-found with the state untouched - in particular no request is
logged, so neither the matching service nor the local scan is reached. -/
theorem claim8_malformed (mts token stremioId : String) (s : St)
    (hmiss : lookupKey stremioId s.cache = none)
    (hmal : (splitColonStr stremioId).length ≠ 3) :
    stremio_to_plex_id mts token stremioId PlexMediaType.show s =
      Res.ok none s := by
  simp only [stremio_to_plex_id, bind_def, M.bind, cacheGet, hmiss]
  simp only [stremioResolveUncached, if_pos rfl]
  rcases hsplit : splitColonStr stremioId with _ | ⟨a, _ | ⟨b, _ | ⟨c, _ | ⟨d, t⟩⟩⟩⟩ <;>
    simp_all [M.pure]

theorem claim8_witness :
    stremio_to_plex_id "" "t" "tt0111161:2" PlexMediaType.show
      (St.mk [CallRes.unauth] [] []) =
    Res.ok none (St.mk [CallRes.unauth] [] []) :=
  claim8_malformed "" "t" "tt0111161:2" (St.mk [CallRes.unauth] [] [])
    (by decide) (by decide)

/-! ## Association-list lemmas (claims C1, C2 support) -/

theorem lookupKey_setKey_self [BEq κ] [LawfulBEq κ] (k : κ) (v : α)
    (l : List (κ × α)) : lookupKey k (setKey k v l) = some v := by
  induction l with
  | nil => simp [setKey, lookupKey]
  | cons p rest ih =>
    by_cases h : p.1 == k
    · simp [setKey, h, lookupKey]
    · simp [setKey, h, lookupKey, ih]

theorem lookupKey_setKey_ne [BEq κ] [LawfulBEq κ] (k' k : κ) (v : α)
    (l : List (κ × α)) (h : k' ≠ k) :
    lookupKey k' (setKey k v l) = lookupKey k' l := by
  induction l with
  | nil =>
    have : (k == k') = false := by
      rw [beq_eq_false_iff_ne]
      exact fun he => h he.symm
    simp [setKey, lookupKey, this]
  | cons p rest ih =>
    by_cases hp : p.1 == k
    · have hpk : p.1 = k := eq_of_beq hp
      have h1 : (k == k') = false := by
        rw [beq_eq_false_iff_ne]
        exact fun he => h he.symm
      have h2 : (p.1 == k') = false := by
        rw [beq_eq_false_iff_ne, hpk]
        exact fun he => h he.symm
      simp [setKey, hp, lookupKey, h1, h2]
    · simp [setKey, hp, lookupKey, ih]

theorem lookupKey_cons [BEq κ] (k : κ) (p : κ × α) (rest : List (κ × α)) :
    lookupKey k (p :: rest) =
      if p.1 == k then some p.2 else lookupKey k rest := rfl

theorem setKey_cons [BEq κ] (k : κ) (v : α) (p : κ × α) (rest : List (κ × α)) :
    setKey k v (p :: rest) =
      if p.1 == k then (k, v) :: rest else p :: setKey k v rest := rfl

theorem addPair_cons (k v : List Char) (p : List Char × List (List Char))
    (rest : List (List Char × List (List Char))) :
    addPair k v (p :: rest) =
      if p.1 == k then (p.1, p.2 ++ [v]) :: rest
      else p :: addPair k v rest := rfl

theorem maskToken_cons (p : List Char × List (List Char))
    (rest : List (List Char × List (List Char))) :
    maskToken (p :: rest) =
      (if p.1 == xPlexToken then (p.1, ([] : List (List Char))) else p) ::
        maskToken rest := rfl

theorem flattenParams_cons (p : List Char × List (List Char))
    (rest : List (List Char × List (List Char))) :
    flattenParams (p :: rest) = (p.1, p.2.headD []) :: flattenParams rest := rfl

theorem lookupKey_flattenParams (k : List Char)
    (params : List (List Char × List (List Char))) :
    lookupKey k (flattenParams params) =
      (lookupKey k params).map fun vs => vs.headD [] := by
  induction params with
  | nil => rfl
  | cons p rest ih =>
    rw [flattenParams_cons, lookupKey_cons, lookupKey_cons]
    by_cases h : p.1 == k
    · rw [if_pos h, if_pos h]
      rfl
    · rw [if_neg (by simp_all), if_neg (by simp_all)]
      exact ih

theorem keys_addPair (k v : List Char)
    (l : List (List Char × List (List Char))) (k' : List Char) :
    k' ∈ (addPair k v l).map Prod.fst ↔ k' ∈ l.map Prod.fst ∨ k' = k := by
  induction l with
  | nil => simp [addPair]
  | cons p rest ih =>
    by_cases h : p.1 == k
    · have : p.1 = k := eq_of_beq h
      simp [addPair, h, this]
      tauto
    · simp [addPair, h, ih]
      tauto

theorem nodup_keys_addPair (k : List Char) (v : List Char)
    (l : List (List Char × List (List Char)))
    (h : (l.map Prod.fst).Nodup) : ((addPair k v l).map Prod.fst).Nodup := by
  induction l with
  | nil => simp [addPair]
  | cons p rest ih =>
    simp only [List.map_cons, List.nodup_cons] at h
    rw [addPair_cons]
    by_cases hp : p.1 == k
    · rw [if_pos hp, List.map_cons, List.nodup_cons]
      exact ⟨h.1, h.2⟩
    · rw [if_neg (by simp_all), List.map_cons, List.nodup_cons]
      refine ⟨?_, ih h.2⟩
      rw [keys_addPair]
      rintro (hmem | heq)
      · exact h.1 hmem
      · exact (by simpa using hp : p.1 ≠ k) heq

theorem nodup_keys_foldl_addPair (pairs : List (List Char × List Char))
    (acc : List (List Char × List (List Char)))
    (h : (acc.map Prod.fst).Nodup) :
    ((pairs.foldl (fun acc p => addPair p.1 p.2 acc) acc).map Prod.fst).Nodup := by
  induction pairs generalizing acc with
  | nil => exact h
  | cons p rest ih => exact ih _ (nodup_keys_addPair _ _ _ h)

theorem parse_qs_keys_nodup (qs : List Char) :
    ((parse_qs qs).map Prod.fst).Nodup :=
  nodup_keys_foldl_addPair _ [] (by simp)

theorem maskToken_id_of_not_mem (l : List (List Char × List (List Char)))
    (h : xPlexToken ∉ l.map Prod.fst) : maskToken l = l := by
  induction l with
  | nil => rfl
  | cons p rest ih =>
    simp only [List.map_cons, List.mem_cons] at h
    push_neg at h
    have hne : ¬ (p.1 == xPlexToken) = true := by
      simp only [beq_iff_eq]
      exact fun he => h.1 he.symm
    rw [maskToken_cons, if_neg hne, ih h.2]

theorem setKey_eq_of_maskToken_eq (v : List (List Char))
    (p1 p2 : List (List Char × List (List Char)))
    (h : maskToken p1 = maskToken p2)
    (h1 : (p1.map Prod.fst).Nodup) (h2 : (p2.map Prod.fst).Nodup) :
    setKey xPlexToken v p1 = setKey xPlexToken v p2 := by
  induction p1 generalizing p2 with
  | nil =>
    cases p2 with
    | nil => rfl
    | cons q rest2 => simp [maskToken] at h
  | cons p rest ih =>
    cases p2 with
    | nil => simp [maskToken] at h
    | cons q rest2 =>
      rw [maskToken_cons, maskToken_cons] at h
      injection h with hhead htail
      have hfst : p.1 = q.1 := by
        have h' := congrArg Prod.fst hhead
        simpa [apply_ite Prod.fst] using h'
      simp only [List.map_cons, List.nodup_cons] at h1 h2
      rw [setKey_cons, setKey_cons]
      by_cases hp : p.1 == xPlexToken
      · have hq : q.1 == xPlexToken := by rw [← hfst]; exact hp
        have hrest : rest = rest2 := by
          have hr1 : maskToken rest = rest :=
            maskToken_id_of_not_mem rest (by rw [← eq_of_beq hp]; exact h1.1)
          have hr2 : maskToken rest2 = rest2 :=
            maskToken_id_of_not_mem rest2 (by rw [← eq_of_beq hq]; exact h2.1)
          rw [← hr1, ← hr2, htail]
        rw [if_pos hp, if_pos hq, hrest]
      · have hq : ¬ (q.1 == xPlexToken) = true := by rw [← hfst]; exact hp
        rw [if_neg hp, if_neg hq] at hhead
        rw [if_neg hp, if_neg hq, hhead, ih rest2 htail h1.2 h2.2]

/-! ## The proxy is the sole source of truth for credentials (claim C1) -/

/-- Claim C1: for every proxy request, the target URL carries the configured
access token as its `X-Plex-Token` query value, and two `q` values that differ
only in client-supplied token values (same path, and parsed queries equal after
masking the token key's values) produce the same target URL. -/
theorem claim1_token_override (token q1 q2 : List Char)
    (hpath : path_part (coerceQ q1) = path_part (coerceQ q2))
    (hquery : maskToken (parse_qs (query_part (coerceQ q1))) =
      maskToken (parse_qs (query_part (coerceQ q2)))) :
    lookupKey xPlexToken (proxy_target token q1).query = some token ∧
    proxy_target token q1 = proxy_target token q2 := by
  constructor
  · simp only [proxy_target, proxy_params]
    rw [lookupKey_flattenParams, lookupKey_setKey_self]
    rfl
  · simp only [proxy_target, proxy_params, ProxyTarget.mk.injEq]
    exact ⟨hpath,
      congrArg flattenParams
        (setKey_eq_of_maskToken_eq _ _ _ hquery (parse_qs_keys_nodup _)
          (parse_qs_keys_nodup _))⟩

theorem claim1_witness :
    proxy_target "tok".toList "/f.mkv?a=1&X-Plex-Token=evil".toList =
      proxy_target "tok".toList "/f.mkv?a=1&X-Plex-Token=zz".toList :=
  (claim1_token_override "tok".toList "/f.mkv?a=1&X-Plex-Token=evil".toList
    "/f.mkv?a=1&X-Plex-Token=zz".toList (by decide) (by decide)).2

/-! ## Flattening keeps the first value, not the last (claim C2) -/

/-- Claim C2 counterexample: for `q = "/p?a=1&a=2"` the flattened query value
kept for the repeated key `a` is `"1"`, the first parsed value - not the last
value `"2"` that the claim's last-wins reading predicts. -/
theorem claim2_cex :
    lookupKey "a".toList
        (proxy_target "tok".toList "/p?a=1&a=2".toList).query =
      some "1".toList ∧
    lookupKey "a".toList
        (proxy_target "tok".toList "/p?a=1&a=2".toList).query ≠
      some "2".toList := by decide

/-- Claim C2 (amended): when the proxy flattens the parsed key-multivalue map
of `q`, for every key (other than the overwritten token key) that appears with
multiple values, the value kept is the FIRST one in order of appearance
(`v[0]`), not the last. -/
theorem claim2_first_wins (token q k : List Char) (vs : List (List Char))
    (hk : k ≠ xPlexToken)
    (h : lookupKey k (parse_qs (query_part (coerceQ q))) = some vs) :
    lookupKey k (proxy_target token q).query = some (vs.headD []) := by
  simp only [proxy_target, proxy_params]
  rw [lookupKey_flattenParams, lookupKey_setKey_ne _ _ _ _ hk, h]
  rfl

theorem claim2_witness :
    lookupKey "a".toList
      (proxy_target "tok".toList "/p2?a=1&a=2&b=3".toList).query =
      some "1".toList :=
  claim2_first_wins "tok".toList "/p2?a=1&a=2&b=3".toList "a".toList
    ["1".toList, "2".toList] (by decide) (by decide)

/-! ## Error classification: only the BaseException escapes (claims C5, C10) -/

theorem isException_false_iff (e : PyErr) :
    e.isException = false ↔ e = PyErr.unauthorized := by
  cases e <;> simp [PyErr.isException]

theorem tryCatch_pure_err (m : M α) (x : α) (s : St) (e : PyErr) (s' : St)
    (h : tryCatchExc m (M.pure x) s = Res.err e s') : e = PyErr.unauthorized := by
  unfold tryCatchExc at h
  split at h
  · exact Res.noConfusion h
  · rename_i e' t heq
    split at h
    · exact Res.noConfusion h
    · rename_i hne
      injection h with h1 _
      subst h1
      exact (isException_false_iff e').mp (by simpa using hne)

/-- Claim C5 counterexample: with the matching service reachable via the access
token and every origin call failing with a transport error (502 at Stage A,
then 502 at each of the three Stage-B GUID probes and 504 at the Stage-B
section listing), `imdb_to_plex_id` returns a not-found result - the Stage-B
transport errors are swallowed by the catch-all, not propagated as a
gateway-style failure. -/
theorem claim5_cex :
    imdb_to_plex_id "" "t" true "tt1" PlexMediaType.movie
      (St.mk [CallRes.transport 502, CallRes.transport 502, CallRes.transport 502,
        CallRes.transport 502, CallRes.transport 504] [] []) =
    Res.ok none (St.mk []
      [Req.matches "tt1" 1, Req.libraryAll "com.plexapp.agents.imdb://tt1?lang=en",
       Req.libraryAll "imdb://tt1", Req.libraryAll "imdb-tt1", Req.librarySections]
      []) := by decide

/-- Claim C5 (amended): a transport error raised during Stage B does NOT
propagate - both stages sit inside `except Exception` handlers that fall
through to a not-found result, so the only error `imdb_to_plex_id` can raise
to its caller is the `BaseException`-derived unauthorized error. -/
theorem claim5_swallowed (mts token : String) (hasUrl : Bool)
    (imdbId : String) (mt : PlexMediaType) (s : St) (e : PyErr) (s' : St)
    (h : imdb_to_plex_id mts token hasUrl imdbId mt s = Res.err e s') :
    e = PyErr.unauthorized := by
  unfold imdb_to_plex_id at h
  simp only [bindOp_def, bind_def] at h
  unfold M.bind at h
  dsimp only at h
  by_cases hc : (if mts = "" then token else mts) = ""
  · rw [if_pos hc] at h
    unfold M.pure at h
    dsimp only at h
    by_cases hu : hasUrl = true
    · rw [if_pos hu] at h
      exact tryCatch_pure_err _ _ _ _ _ h
    · rw [if_neg hu] at h
      exact Res.noConfusion h
  · rw [if_neg hc] at h
    split at h
    · rename_i a t ha
      rcases a with _ | found
      · dsimp only at h
        by_cases hu : hasUrl = true
        · rw [if_pos hu] at h
          exact tryCatch_pure_err _ _ _ _ _ h
        · rw [if_neg hu] at h
          exact Res.noConfusion h
      · exact Res.noConfusion h
    · rename_i e0 t ha
      injection h with h1 _
      subst h1
      exact tryCatch_pure_err _ _ _ _ _ ha

theorem claim5_witness :
    imdb_to_plex_id "" "t" true "tt1" PlexMediaType.movie
      (St.mk [CallRes.unauth] [] []) =
      Res.err PyErr.unauthorized (St.mk [] [Req.matches "tt1" 1] []) ∧
    PyErr.unauthorized = PyErr.unauthorized :=
  ⟨by decide,
   claim5_swallowed "" "t" true "tt1" PlexMediaType.movie
     (St.mk [CallRes.unauth] [] []) PyErr.unauthorized
     (St.mk [] [Req.matches "tt1" 1] []) (by decide)⟩

/-! ## The unauthorized error escapes every catch-all (claim C10) -/

theorem unauth_stageA_escape (mts token : String) (hasUrl : Bool)
    (imdbId : String) (mt : PlexMediaType) (lg : List Req)
    (ch : List (String × String)) (rest : List CallRes)
    (hc : (if mts = "" then token else mts) ≠ "") :
    imdb_to_plex_id mts token hasUrl imdbId mt
        (St.mk (CallRes.unauth :: rest) lg ch) =
      Res.err PyErr.unauthorized
        (St.mk rest
          (lg ++ [Req.matches imdbId (if mt = PlexMediaType.movie then 1 else 2)])
          ch) := by
  unfold imdb_to_plex_id
  rw [if_neg hc]
  rfl

theorem unauth_stageB_escape (mts token imdbId : String) (mt : PlexMediaType)
    (lg : List Req) (ch : List (String × String)) (stc : Nat)
    (rest : List CallRes) (hc : (if mts = "" then token else mts) ≠ "") :
    imdb_to_plex_id mts token true imdbId mt
        (St.mk (CallRes.transport stc :: CallRes.unauth :: rest) lg ch) =
      Res.err PyErr.unauthorized
        (St.mk rest
          (lg ++ [Req.matches imdbId (if mt = PlexMediaType.movie then 1 else 2),
            Req.libraryAll ("com.plexapp.agents.imdb://" ++ imdbId ++ "?lang=en")])
          ch) := by
  unfold imdb_to_plex_id
  rw [if_neg hc]
  have happ : lg ++ [Req.matches imdbId (if mt = PlexMediaType.movie then 1 else 2),
      Req.libraryAll ("com.plexapp.agents.imdb://" ++ imdbId ++ "?lang=en")] =
      (lg ++ [Req.matches imdbId (if mt = PlexMediaType.movie then 1 else 2)]) ++
        [Req.libraryAll ("com.plexapp.agents.imdb://" ++ imdbId ++ "?lang=en")] := by
    simp
  rw [happ]
  rfl

/-- Claim C10: a 401/403 origin response raises the `BaseException`-derived
unauthorized error, which `except Exception` does not catch
(`isException = false`), so it escapes both the Stage-A swallow and the
Stage-B catch-all of `imdb_to_plex_id` and aborts the whole resolution with
the unauthorized error instead of falling back or returning not-found. -/
theorem claim10_unauthorized_escapes :
    PyErr.isException PyErr.unauthorized = false ∧
    (∀ (mts token : String) (hasUrl : Bool) (imdbId : String)
        (mt : PlexMediaType) (lg : List Req) (ch : List (String × String))
        (rest : List CallRes),
      (if mts = "" then token else mts) ≠ "" →
      imdb_to_plex_id mts token hasUrl imdbId mt
          (St.mk (CallRes.unauth :: rest) lg ch) =
        Res.err PyErr.unauthorized
          (St.mk rest
            (lg ++ [Req.matches imdbId
              (if mt = PlexMediaType.movie then 1 else 2)]) ch)) ∧
    (∀ (mts token imdbId : String) (mt : PlexMediaType) (lg : List Req)
        (ch : List (String × String)) (stc : Nat) (rest : List CallRes),
      (if mts = "" then token else mts) ≠ "" →
      imdb_to_plex_id mts token true imdbId mt
          (St.mk (CallRes.transport stc :: CallRes.unauth :: rest) lg ch) =
        Res.err PyErr.unauthorized
          (St.mk rest
            (lg ++ [Req.matches imdbId (if mt = PlexMediaType.movie then 1 else 2),
              Req.libraryAll ("com.plexapp.agents.imdb://" ++ imdbId ++ "?lang=en")])
            ch)) :=
  ⟨rfl,
   fun mts token hasUrl imdbId mt lg ch rest hc =>
     unauth_stageA_escape mts token hasUrl imdbId mt lg ch rest hc,
   fun mts token imdbId mt lg ch stc rest hc =>
     unauth_stageB_escape mts token imdbId mt lg ch stc rest hc⟩

theorem claim10_witness :
    imdb_to_plex_id "" "t" true "tt1" PlexMediaType.show
        (St.mk [CallRes.unauth] [] []) =
      Res.err PyErr.unauthorized
        (St.mk []
          ([] ++ [Req.matches "tt1"
            (if PlexMediaType.show = PlexMediaType.movie then 1 else 2)]) []) ∧
    imdb_to_plex_id "" "t" true "tt1" PlexMediaType.show
        (St.mk [CallRes.transport 502, CallRes.unauth] [] []) =
      Res.err PyErr.unauthorized
        (St.mk []
          ([] ++ [Req.matches "tt1"
              (if PlexMediaType.show = PlexMediaType.movie then 1 else 2),
            Req.libraryAll ("com.plexapp.agents.imdb://" ++ "tt1" ++ "?lang=en")])
          []) :=
  ⟨claim10_unauthorized_escapes.2.1 "" "t" true "tt1" PlexMediaType.show [] [] []
     (by decide),
   claim10_unauthorized_escapes.2.2 "" "t" "tt1" PlexMediaType.show [] [] 502 []
     (by decide)⟩

/-! ## Cache preservation (claim C7 support)

Every resolver computation except the final `cache.set` leaves the cache
untouched; the lemmas below establish this for each embedded function. -/

theorem cache_pure (a : α) (s : St) : ((M.pure a s).state).cache = s.cache := rfl

theorem cache_throw (e : PyErr) (s : St) :
    (((M.throw e : M α) s).state).cache = s.cache := rfl

theorem cache_bind {m : M α} {f : α → M β}
    (hm : ∀ s, ((m s).state).cache = s.cache)
    (hf : ∀ a s, ((f a s).state).cache = s.cache) (s : St) :
    (((M.bind m f) s).state).cache = s.cache := by
  unfold M.bind
  rcases hms : m s with ⟨a, t⟩ | ⟨e, t⟩
  · have ht := hm s
    rw [hms] at ht
    exact (hf a t).trans ht
  · have ht := hm s
    rw [hms] at ht
    exact ht

theorem cache_tryCatch {m h : M α}
    (hm : ∀ s, ((m s).state).cache = s.cache)
    (hh : ∀ s, ((h s).state).cache = s.cache) (s : St) :
    ((tryCatchExc m h s).state).cache = s.cache := by
  unfold tryCatchExc
  rcases hms : m s with ⟨a, t⟩ | ⟨e, t⟩
  · have ht := hm s
    rw [hms] at ht
    exact ht
  · have ht := hm s
    rw [hms] at ht
    dsimp only
    by_cases he : e.isException = true
    · rw [if_pos he]
      exact (hh t).trans ht
    · rw [if_neg he]
      exact ht

theorem cache_getJson (r : Req) (s : St) :
    ((getJson r s).state).cache = s.cache := by
  obtain ⟨scr, lg, ch⟩ := s
  cases scr with
  | nil => rfl
  | cons c rest => cases c <;> rfl

theorem state_validateMediaMeta (m : MetaItem) (s : St) :
    ((validateMediaMeta m) s).state = s := by
  obtain ⟨g, k, ty, rk, ti, G, i, pi⟩ := m
  unfold validateMediaMeta
  cases g <;> cases ty <;> cases ti <;> try rfl
  next g' t' ti' =>
    dsimp only
    rcases hp : parseMediaType t' with _ | mt <;> rfl

theorem cache_getMediaLoop (b : Bool) (l : List MetaItem) :
    ∀ (acc : List PlexMediaMeta) (s : St),
      (((getMediaLoop b l acc) s).state).cache = s.cache := by
  induction l with
  | nil => intro acc s; rfl
  | cons sec rest ih =>
    intro acc s
    unfold getMediaLoop
    simp only [bindOp_def, bind_def]
    obtain ⟨g, k, ty, rk, ti, G, i, pi⟩ := sec
    cases ty with
    | none => rfl
    | some t =>
      dsimp only
      by_cases ht : t = "show" ∨ t = "movie" ∨ t = "episode"
      · rw [if_pos ht]
        cases rk with
        | none => rfl
        | some rk' =>
          dsimp only
          rw [bind_pure_apply]
          refine cache_bind (fun s' => cache_getJson _ s') (fun j s' => ?_) s
          obtain ⟨md, dir, tot⟩ := j
          cases md with
          | nil => rfl
          | cons m mtail =>
            dsimp only
            rw [bind_pure_apply]
            refine cache_bind (fun s'' => by rw [state_validateMediaMeta])
              (fun mm s'' => ?_) s'
            by_cases hb : b = true
            · rw [if_pos hb]
              exact cache_pure _ s''
            · rw [if_neg hb]
              exact ih _ s''
      · rw [if_neg ht]
        exact ih _ s

theorem cache_get_media (guid : String) (b : Bool) (s : St) :
    (((get_media guid b) s).state).cache = s.cache := by
  unfold get_media
  simp only [bindOp_def, bind_def]
  exact cache_bind (fun s' => cache_getJson _ s')
    (fun j s' => cache_getMediaLoop b j.Metadata [] s') s

theorem state_validateEpisodes (l : List MetaItem) :
    ∀ (i : Nat) (s : St), ((validateEpisodes l i) s).state = s := by
  induction l with
  | nil => intro i s; rfl
  | cons m rest ih =>
    intro i s
    unfold validateEpisodes
    obtain ⟨g, k, ty, rk, ti, G, idx, pi⟩ := m
    cases g <;> cases ti <;> try rfl
    simp only [bindOp_def, bind_def]
    unfold M.bind
    dsimp only
    rcases hr : validateEpisodes rest (i + 1) s with ⟨a, s'⟩ | ⟨e, s'⟩ <;>
      (have hs := ih (i + 1) s; rw [hr] at hs; exact hs)

theorem cache_get_all_episodes (key : Option String) (s : St) :
    (((get_all_episodes key) s).state).cache = s.cache := by
  unfold get_all_episodes
  simp only [bindOp_def, bind_def]
  cases key with
  | none => rfl
  | some k =>
    dsimp only
    rw [bind_pure_apply]
    refine cache_bind (fun s' => cache_getJson _ s') (fun j s' => ?_) s
    rw [state_validateEpisodes]

theorem cache_get_episode_guid (key : Option String) (season episode : String)
    (s : St) : (((get_episode_guid key season episode) s).state).cache = s.cache := by
  unfold get_episode_guid
  simp only [bindOp_def, bind_def]
  exact cache_bind (fun s' => cache_get_all_episodes key s')
    (fun eps s' => cache_pure _ s') s

theorem cache_tryFormats (l : List String) :
    ∀ (s : St), (((tryFormats l) s).state).cache = s.cache := by
  induction l with
  | nil => intro s; rfl
  | cons g rest ih =>
    intro s
    unfold tryFormats
    simp only [bindOp_def, bind_def]
    refine cache_bind ?_ (fun r s' => ?_) s
    · intro s'
      refine cache_tryCatch ?_ (fun s'' => cache_pure _ s'') s'
      intro s''
      refine cache_bind (fun s3 => cache_get_media g true s3) (fun media s3 => ?_) s''
      cases media <;> exact cache_pure _ s3
    · cases r with
      | some found => exact cache_pure _ s'
      | none => exact ih s'

theorem cache_scanPages (sectionId imdbId : String) (fuel : Nat) :
    ∀ (start : Nat) (s : St),
      (((scanPages sectionId imdbId fuel start) s).state).cache = s.cache := by
  induction fuel with
  | zero => intro start s; rfl
  | succ n ih =>
    intro start s
    unfold scanPages
    simp only [bindOp_def, bind_def]
    refine cache_bind (fun s' => cache_getJson _ s') (fun j s' => ?_) s
    by_cases hempty : j.Metadata.isEmpty = true
    · rw [if_pos hempty]
      exact cache_pure _ s'
    · rw [if_neg hempty]
      cases findImdbItem imdbId j.Metadata with
      | some found => exact cache_pure _ s'
      | none =>
        dsimp only
        by_cases hsz : j.totalSize ≤ start + j.Metadata.length
        · rw [if_pos hsz]
          exact cache_pure _ s'
        · rw [if_neg hsz]
          exact ih _ s'

theorem cache_scanSections (imdbId : String) (l : List SectionDir) :
    ∀ (s : St), (((scanSections imdbId l) s).state).cache = s.cache := by
  induction l with
  | nil => intro s; rfl
  | cons sec rest ih =>
    intro s
    unfold scanSections
    simp only [bindOp_def, bind_def]
    obtain ⟨sty, skey⟩ := sec
    cases skey with
    | none => rfl
    | some sid =>
      dsimp only
      rw [bind_pure_apply]
      refine cache_bind ?_ (fun r s'' => ?_) s
      · intro s''
        unfold withScriptFuel
        exact cache_scanPages sid imdbId (s''.script.length + 1) 0 s''
      · cases r with
        | some found => exact cache_pure _ s''
        | none => exact ih s''

theorem cache_stageA (imdbId : String) (typeCode : Nat) (s : St) :
    (((stageA imdbId typeCode) s).state).cache = s.cache := by
  unfold stageA
  simp only [bindOp_def, bind_def]
  refine cache_bind (fun s' => cache_getJson _ s') (fun j s' => ?_) s
  by_cases htot : 0 < j.totalSize
  · rw [if_pos htot]
    cases j.Metadata with
    | nil => exact cache_throw _ s'
    | cons item rest =>
      dsimp only
      cases item.guid <;> first | exact cache_throw _ s' | exact cache_pure _ s'
  · rw [if_neg htot]
    exact cache_pure _ s'

theorem cache_stageB (imdbId : String) (mt : PlexMediaType) (s : St) :
    (((stageB imdbId mt) s).state).cache = s.cache := by
  unfold stageB
  simp only [bindOp_def, bind_def]
  refine cache_bind (fun s' => cache_tryFormats _ s') (fun r s' => ?_) s
  cases r with
  | some found => exact cache_pure _ s'
  | none =>
    refine cache_bind (fun s'' => cache_getJson _ s'') (fun j s'' => ?_) s'
    exact cache_scanSections imdbId _ s''

theorem cache_imdb_to_plex_id (mts token : String) (hasUrl : Bool)
    (imdbId : String) (mt : PlexMediaType) (s : St) :
    (((imdb_to_plex_id mts token hasUrl imdbId mt) s).state).cache = s.cache := by
  unfold imdb_to_plex_id
  simp only [bindOp_def, bind_def]
  have hcont : ∀ (a : Option String) (s' : St),
      (((fun a => match a with
        | some found => M.pure (some found)
        | none =>
          if hasUrl = true then tryCatchExc (stageB imdbId mt) (M.pure none)
          else M.pure none) a) s').state.cache = s'.cache := by
    intro a s'
    cases a with
    | some found => exact cache_pure _ s'
    | none =>
      dsimp only
      by_cases hu : hasUrl = true
      · rw [if_pos hu]
        exact cache_tryCatch (fun s'' => cache_stageB _ _ s'')
          (fun s'' => cache_pure _ s'') s'
      · rw [if_neg hu]
        exact cache_pure _ s'
  by_cases hc : (if mts = "" then token else mts) = ""
  · rw [if_pos hc]
    rw [bind_pure_apply]
    exact hcont none s
  · rw [if_neg hc]
    exact cache_bind
      (fun s' => cache_tryCatch (fun s'' => cache_stageA _ _ s'')
        (fun s'' => cache_pure _ s'') s')
      hcont s

theorem cache_episodeLoop (season episode : String) (l : List PlexMediaMeta) :
    ∀ (s : St), (((episodeLoop season episode l) s).state).cache = s.cache := by
  induction l with
  | nil => intro s; rfl
  | cons meta rest ih =>
    intro s
    unfold episodeLoop
    simp only [bindOp_def, bind_def]
    refine cache_bind (fun s' => cache_get_episode_guid _ _ _ s') (fun e s' => ?_) s
    cases e with
    | some v =>
      dsimp only
      by_cases hv : v = ""
      · rw [if_pos hv]
        exact ih s'
      · rw [if_neg hv]
        exact cache_pure _ s'
    | none => exact ih s'

theorem sap_cache (mts token stremioId imdbId : String)
    (se : Option (String × String)) (mt : PlexMediaType) (s : St) :
    ((stremioAfterParse mts token stremioId imdbId se mt s).state).cache =
        s.cache ∨
    (∃ v s', v ≠ "" ∧
      stremioAfterParse mts token stremioId imdbId se mt s = Res.ok (some v) s' ∧
      s'.cache = setKey stremioId v s.cache) := by
  unfold stremioAfterParse
  simp only [bindOp_def, bind_def]
  unfold M.bind
  dsimp only
  rcases h1 : imdb_to_plex_id mts token true imdbId mt s with ⟨a, t⟩ | ⟨e, t⟩
  · have hc1 : t.cache = s.cache := by
      have := cache_imdb_to_plex_id mts token true imdbId mt s
      rw [h1] at this
      exact this
    cases a with
    | none => exact Or.inl hc1
    | some plexId =>
      dsimp only
      by_cases hpe : plexId = ""
      · rw [if_pos hpe]
        exact Or.inl hc1
      · rw [if_neg hpe]
        cases se with
        | none =>
          dsimp only [M.pure]
          rw [if_neg hpe]
          right
          exact ⟨plexId, St.mk t.script t.log (setKey stremioId plexId t.cache),
            hpe, rfl, by rw [hc1]⟩
        | some sePair =>
          obtain ⟨season, episode⟩ := sePair
          dsimp only
          rcases h2 : get_media plexId false t with ⟨media, u⟩ | ⟨e2, u⟩
          · have hcu : u.cache = t.cache := by
              have := cache_get_media plexId false t
              rw [h2] at this
              exact this
            dsimp only
            rcases h3 : episodeLoop season episode media u with ⟨r, w⟩ | ⟨e3, w⟩
            · have hcw : w.cache = u.cache := by
                have := cache_episodeLoop season episode media u
                rw [h3] at this
                exact this
              cases r with
              | none => exact Or.inl ((hcw.trans hcu).trans hc1)
              | some fid =>
                dsimp only
                by_cases hf : fid = ""
                · rw [if_pos hf]
                  exact Or.inl ((hcw.trans hcu).trans hc1)
                · rw [if_neg hf]
                  right
                  exact ⟨fid, St.mk w.script w.log (setKey stremioId fid w.cache),
                    hf, rfl, by rw [hcw, hcu, hc1]⟩
            · have hcw : w.cache = u.cache := by
                have := cache_episodeLoop season episode media u
                rw [h3] at this
                exact this
              exact Or.inl (hcw.trans (hcu.trans hc1))
          · have hcu : u.cache = t.cache := by
              have := cache_get_media plexId false t
              rw [h2] at this
              exact this
            exact Or.inl (hcu.trans hc1)
  · left
    have := cache_imdb_to_plex_id mts token true imdbId mt s
    rw [h1] at this
    exact this

theorem sru_cache (mts token stremioId : String) (mt : PlexMediaType) (s : St) :
    ((stremioResolveUncached mts token stremioId mt s).state).cache = s.cache ∨
    (∃ v s', v ≠ "" ∧
      stremioResolveUncached mts token stremioId mt s = Res.ok (some v) s' ∧
      s'.cache = setKey stremioId v s.cache) := by
  unfold stremioResolveUncached
  by_cases hmt : mt = PlexMediaType.show
  · rw [if_pos hmt]
    rcases hsp : splitColonStr stremioId with _ | ⟨a, _ | ⟨b, _ | ⟨c, _ | ⟨d, tl⟩⟩⟩⟩ <;>
      dsimp only
    · exact Or.inl rfl
    · exact Or.inl rfl
    · exact Or.inl rfl
    · exact sap_cache mts token stremioId a (some (b, c)) mt s
    · exact Or.inl rfl
  · rw [if_neg hmt]
    exact sap_cache mts token stremioId stremioId none mt s

/-- Claim C7: across every execution of `stremio_to_plex_id`, the cache is
written only on a successful terminal resolution - an error outcome or a
not-found outcome leaves the cache exactly as it was, and a returned origin ID
leaves the cache either untouched (a cache hit) or extended with exactly the
nonempty mapping `stremio_id -> plex_id` of the value returned, so no entry is
ever set to an empty value. -/
theorem claim7_cache_write (mts token stremioId : String) (mt : PlexMediaType)
    (s : St) :
    (∀ e s', stremio_to_plex_id mts token stremioId mt s = Res.err e s' →
      s'.cache = s.cache) ∧
    (∀ s', stremio_to_plex_id mts token stremioId mt s = Res.ok none s' →
      s'.cache = s.cache) ∧
    (∀ v s', stremio_to_plex_id mts token stremioId mt s = Res.ok (some v) s' →
      s'.cache = s.cache ∨
        (v ≠ "" ∧ s'.cache = setKey stremioId v s.cache)) := by
  have hred : stremio_to_plex_id mts token stremioId mt s =
      (match lookupKey stremioId s.cache with
       | some v =>
         if v = "" then stremioResolveUncached mts token stremioId mt s
         else Res.ok (some v) s
       | none => stremioResolveUncached mts token stremioId mt s) := by
    unfold stremio_to_plex_id
    simp only [bindOp_def, bind_def]
    unfold M.bind cacheGet
    dsimp only
    rcases lookupKey stremioId s.cache with _ | v
    · rfl
    · dsimp only
      by_cases hv : v = ""
      · rw [if_pos hv, if_pos hv]
      · rw [if_neg hv, if_neg hv]
        rfl
  refine ⟨?_, ?_, ?_⟩
  · intro e s' h
    rw [hred] at h
    rcases hl : lookupKey stremioId s.cache with _ | v <;> rw [hl] at h <;>
      dsimp only at h
    · rcases sru_cache mts token stremioId mt s with hpres | ⟨v0, s0, _, heq, _⟩
      · rw [h] at hpres
        exact hpres
      · rw [h] at heq
        exact Res.noConfusion heq
    · by_cases hv : v = ""
      · rw [if_pos hv] at h
        rcases sru_cache mts token stremioId mt s with hpres | ⟨v0, s0, _, heq, _⟩
        · rw [h] at hpres
          exact hpres
        · rw [h] at heq
          exact Res.noConfusion heq
      · rw [if_neg hv] at h
        exact Res.noConfusion h
  · intro s' h
    rw [hred] at h
    rcases hl : lookupKey stremioId s.cache with _ | v <;> rw [hl] at h <;>
      dsimp only at h
    · rcases sru_cache mts token stremioId mt s with hpres | ⟨v0, s0, _, heq, _⟩
      · rw [h] at hpres
        exact hpres
      · rw [h] at heq
        injection heq with hval _
        exact Option.noConfusion hval
    · by_cases hv : v = ""
      · rw [if_pos hv] at h
        rcases sru_cache mts token stremioId mt s with hpres | ⟨v0, s0, _, heq, _⟩
        · rw [h] at hpres
          exact hpres
        · rw [h] at heq
          injection heq with hval _
          exact Option.noConfusion hval
      · rw [if_neg hv] at h
        injection h with hval _
        exact Option.noConfusion hval
  · intro v s' h
    rw [hred] at h
    rcases hl : lookupKey stremioId s.cache with _ | v1 <;> rw [hl] at h <;>
      dsimp only at h
    · rcases sru_cache mts token stremioId mt s with hpres | ⟨v0, s0, hne, heq, hset⟩
      · rw [h] at hpres
        exact Or.inl hpres
      · rw [h] at heq
        injection heq with hval hst
        injection hval with hval'
        right
        subst hst
        subst hval'
        exact ⟨hne, hset⟩
    · by_cases hv : v1 = ""
      · rw [if_pos hv] at h
        rcases sru_cache mts token stremioId mt s with hpres | ⟨v0, s0, hne, heq, hset⟩
        · rw [h] at hpres
          exact Or.inl hpres
        · rw [h] at heq
          injection heq with hval hst
          injection hval with hval'
          right
          subst hst
          subst hval'
          exact ⟨hne, hset⟩
      · rw [if_neg hv] at h
        injection h with _ hst
        exact Or.inl (congrArg St.cache hst.symm)

theorem claim7_witness :
    (St.mk [] [Req.matches "tt1" 1] [("tt1", "plex://movie/g")]).cache =
        (St.mk [CallRes.ok (MediaContainer.mk [MetaItem.mk (some "plex://movie/g")
          none none none none [] none none] [] 1)] [] []).cache ∨
      ("plex://movie/g" ≠ "" ∧
        (St.mk [] [Req.matches "tt1" 1] [("tt1", "plex://movie/g")]).cache =
          setKey "tt1" "plex://movie/g"
            (St.mk [CallRes.ok (MediaContainer.mk [MetaItem.mk
              (some "plex://movie/g") none none none none [] none none] [] 1)]
              [] []).cache) :=
  (claim7_cache_write "" "t" "tt1" PlexMediaType.movie
    (St.mk [CallRes.ok (MediaContainer.mk [MetaItem.mk (some "plex://movie/g")
      none none none none [] none none] [] 1)] [] [])).2.2
    "plex://movie/g" (St.mk [] [Req.matches "tt1" 1] [("tt1", "plex://movie/g")])
    (by decide)

/-! ## Transcode-down candidates and the strict width boundary (claim C9) -/

theorem transcodeDownStreams_eq (cfg : BuilderConfig) (selfKey : String)
    (i : Nat) (media : MediaEntry) (l : List Resolution) :
    (l.filterMap fun q =>
      if media.width ≤ (RESOLUTION_QUALITY_PARAMS q).minWidth then none
      else some (transcodeDownCandidate cfg selfKey i q)) =
    (l.filter fun q =>
      decide ((RESOLUTION_QUALITY_PARAMS q).minWidth < media.width)).map
      (transcodeDownCandidate cfg selfKey i) := by
  induction l with
  | nil => rfl
  | cons q rest ih =>
    simp only [List.filterMap_cons, List.filter_cons]
    by_cases h : media.width ≤ (RESOLUTION_QUALITY_PARAMS q).minWidth
    · rw [if_pos h]
      have hd : decide ((RESOLUTION_QUALITY_PARAMS q).minWidth < media.width) =
          false := by
        simp only [decide_eq_false_iff_not]
        omega
      rw [hd]
      simpa using ih
    · rw [if_neg h]
      have hd : decide ((RESOLUTION_QUALITY_PARAMS q).minWidth < media.width) =
          true := by
        simp only [decide_eq_true_eq]
        omega
      rw [hd]
      simp [ih]

theorem transcodeDownOf_candidate_filter (cfg : BuilderConfig) (selfKey : String)
    (i : Nat) (l : List Resolution) :
    transcodeDownOf (l.map (transcodeDownCandidate cfg selfKey i)) =
      l.map (transcodeDownCandidate cfg selfKey i) := by
  induction l with
  | nil => rfl
  | cons q rest ih =>
    simp only [List.map_cons, transcodeDownOf, List.filter_cons,
      transcodeDownCandidate]
    simpa [transcodeDownOf] using ih

/-- Claim C9: with `include_transcode_down` enabled, the builder emits a
transcode-down candidate for a configured target resolution exactly when that
resolution's minimum width is strictly less than the source media's width
(equality yields no candidate), and the candidate's parameters come from the
fixed three-entry `RESOLUTION_QUALITY_PARAMS` table. -/
theorem claim9_transcode_down (cfg : BuilderConfig) (selfKey selfGuid : String)
    (i : Nat) (media : MediaEntry) (hen : cfg.includeTranscodeDown = true) :
    transcodeDownOf (mediaStreams cfg selfKey selfGuid i media) =
      (cfg.transcodeDownQualities.filter fun q =>
        decide ((RESOLUTION_QUALITY_PARAMS q).minWidth < media.width)).map
        (transcodeDownCandidate cfg selfKey i) := by
  unfold mediaStreams
  rw [if_pos hen]
  unfold transcodeDownOf
  simp only [List.filter_append]
  rw [show transcodeDownStreams cfg selfKey i media =
      (cfg.transcodeDownQualities.filter fun q =>
        decide ((RESOLUTION_QUALITY_PARAMS q).minWidth < media.width)).map
        (transcodeDownCandidate cfg selfKey i) from
    transcodeDownStreams_eq cfg selfKey i media cfg.transcodeDownQualities]
  have h1 : (List.filter (fun c =>
      match c.kind with
      | StreamKind.transcodeDown _ => true
      | _ => false)
      [StreamCandidate.mk StreamKind.directPlay
        (OriginUrl.mk (media.partKey.drop 1) [("X-Plex-Token", cfg.accessToken)])
        ("Direct Play " ++ media.videoResolution)]) = [] := rfl
  have h2 : (List.filter (fun c =>
      match c.kind with
      | StreamKind.transcodeDown _ => true
      | _ => false)
      (if cfg.includeTranscodeOriginal = true then
        [StreamCandidate.mk StreamKind.transcodeOriginal
          (OriginUrl.mk (transcodeUrl cfg selfKey i).path
            (updateQuery (transcodeUrl cfg selfKey i).query
              [("videoQuality", "100")]))
          ("Transcode " ++ media.videoResolution ++ " (original)")]
      else [])) = [] := by
    by_cases hb : cfg.includeTranscodeOriginal = true
    · rw [if_pos hb]
      rfl
    · rw [if_neg hb]
      rfl
  have h3 : (List.filter (fun c =>
      match c.kind with
      | StreamKind.transcodeDown _ => true
      | _ => false)
      (if cfg.includePlexTv && selfGuid.startsWith "plex:" then
        [StreamCandidate.mk StreamKind.plexTv
          (OriginUrl.mk
            ("https://app.plex.tv/#!/provider/tv.plex.provider.metadata/details?key=/library/metadata/" ++
              String.mk ((splitSep '/' selfGuid.toList).getLastD []))
            [])
          ""]
      else [])) = [] := by
    by_cases hb : (cfg.includePlexTv && selfGuid.startsWith "plex:") = true
    · rw [if_pos hb]
      rfl
    · rw [if_neg hb]
      rfl
  rw [h1, h2, h3]
  simp only [List.nil_append, List.append_nil]
  exact transcodeDownOf_candidate_filter cfg selfKey i _

theorem claim9_witness :
    transcodeDownOf (mediaStreams
        (BuilderConfig.mk "tok" false true [Resolution.R1080, Resolution.R720]
          false)
        "/library/metadata/1" "plex://x" 0
        (MediaEntry.mk 1920 "/library/parts/1/file.mkv" "1080")) =
      [transcodeDownCandidate
        (BuilderConfig.mk "tok" false true [Resolution.R1080, Resolution.R720]
          false)
        "/library/metadata/1" 0 Resolution.R720] :=
  (claim9_transcode_down
    (BuilderConfig.mk "tok" false true [Resolution.R1080, Resolution.R720] false)
    "/library/metadata/1" "plex://x" 0
    (MediaEntry.mk 1920 "/library/parts/1/file.mkv" "1080") (by decide)).trans
    (by decide)

/-! ## Percent-encoding round trips (claim C3 support) -/

theorem isUpper_toNat_lt {c : Char} (h : c.isUpper = true) : c.toNat < 128 := by
  simp only [Char.isUpper, Bool.and_eq_true, decide_eq_true_eq] at h
  have h2 : c.val.toNat ≤ (90 : UInt32).toNat := h.2
  have h3 : (90 : UInt32).toNat = 90 := rfl
  rw [h3] at h2
  simp only [Char.toNat]
  omega

theorem isLower_toNat_lt {c : Char} (h : c.isLower = true) : c.toNat < 128 := by
  simp only [Char.isLower, Bool.and_eq_true, decide_eq_true_eq] at h
  have h2 : c.val.toNat ≤ (122 : UInt32).toNat := h.2
  have h3 : (122 : UInt32).toNat = 122 := rfl
  rw [h3] at h2
  simp only [Char.toNat]
  omega

theorem isDigit_toNat_lt {c : Char} (h : c.isDigit = true) : c.toNat < 128 := by
  simp only [Char.isDigit, Bool.and_eq_true, decide_eq_true_eq] at h
  have h2 : c.val.toNat ≤ (57 : UInt32).toNat := h.2
  have h3 : (57 : UInt32).toNat = 57 := rfl
  rw [h3] at h2
  simp only [Char.toNat]
  omega

theorem alwaysSafe_toNat_lt {c : Char} (h : alwaysSafe c = true) : c.toNat < 128 := by
  unfold alwaysSafe at h
  simp only [Bool.or_eq_true, beq_iff_eq] at h
  rcases h with ((((h | h) | h) | h) | h)
  · simp only [Char.isAlphanum, Char.isAlpha, Bool.or_eq_true] at h
    rcases h with (h | h) | h
    · exact isUpper_toNat_lt h
    · exact isLower_toNat_lt h
    · exact isDigit_toNat_lt h
  · subst h; decide
  · subst h; decide
  · subst h; decide
  · subst h; decide

theorem hexDigitChar_mem (n : Nat) : hexDigitChar n ∈ hexDigits := by
  by_cases h : n < 16
  · interval_cases n <;> decide
  · have : hexDigitChar n = '0' := by
      unfold hexDigitChar
      apply List.getD_eq_default
      simp only [hexDigits, List.length]
      omega
    rw [this]
    decide

theorem hexVal_hexDigitChar {n : Nat} (h : n < 16) :
    hexVal (hexDigitChar n) = some n := by
  have hall : ∀ m : Fin 16, hexVal (hexDigitChar m.val) = some m.val := by decide
  exact hall ⟨n, h⟩

theorem unquote_cons_ne (c : Char) (h : c ≠ '%') (rest : List Char) :
    unquote (c :: rest) = c :: unquote rest := by
  rw [unquote.eq_def]
  split
  · simp_all
  · rename_i h1' h2' rest' heq
    injection heq with hc _
    exact absurd hc h
  · rename_i c' rest' heq
    injection heq with hc hrest
    rw [hc, hrest]

theorem unquote_pct (c : Char) (hc : c.toNat < 128) (rest : List Char) :
    unquote (pctEncode c ++ rest) = c :: unquote rest := by
  have hdiv : c.toNat / 16 < 16 := by omega
  have hmod : c.toNat % 16 < 16 := by omega
  have h1 := hexVal_hexDigitChar hdiv
  have h2 := hexVal_hexDigitChar hmod
  show unquote ('%' :: hexDigitChar (c.toNat / 16) ::
    hexDigitChar (c.toNat % 16) :: rest) = _
  rw [unquote, h1, h2]
  dsimp only
  rw [show 16 * (c.toNat / 16) + c.toNat % 16 = c.toNat from by omega,
    Char.ofNat_toNat]

theorem unquote_quote (s : List Char) (h : asciiStr s) : unquote (quote s) = s := by
  induction s with
  | nil => rfl
  | cons c rest ih =>
    have hc : c.toNat < 128 := h c (by simp)
    have hrest : asciiStr rest := fun d hd => h d (by simp [hd])
    show unquote (quoteChar c ++ quote rest) = c :: rest
    unfold quoteChar
    by_cases hs : (alwaysSafe c || c == '/') = true
    · rw [if_pos hs]
      have hne : c ≠ '%' := by
        intro he
        subst he
        exact absurd hs (by decide)
      rw [List.singleton_append, unquote_cons_ne c hne, ih hrest]
    · rw [if_neg hs]
      rw [unquote_pct c hc, ih hrest]

theorem plus_not_mem_quoteChar (a : Char) : '+' ∉ quoteChar a := by
  unfold quoteChar
  by_cases hs : (alwaysSafe a || a == '/') = true
  · rw [if_pos hs]
    intro hm
    rw [List.mem_singleton] at hm
    subst hm
    exact absurd hs (by decide)
  · rw [if_neg hs]
    intro hm
    unfold pctEncode at hm
    simp only [List.mem_cons, List.not_mem_nil, or_false] at hm
    rcases hm with hm | hm | hm
    · exact absurd hm (by decide)
    · have := hexDigitChar_mem (a.toNat / 16)
      rw [← hm] at this
      exact absurd this (by decide)
    · have := hexDigitChar_mem (a.toNat % 16)
      rw [← hm] at this
      exact absurd this (by decide)

theorem plus_not_mem_quote (s : List Char) : '+' ∉ quote s := by
  unfold quote
  intro h
  rcases List.mem_flatMap.mp h with ⟨a, _, hmem⟩
  exact plus_not_mem_quoteChar a hmem

theorem map_plusToSpace_id (l : List Char) (h : '+' ∉ l) :
    l.map plusToSpace = l := by
  induction l with
  | nil => rfl
  | cons c rest ih =>
    simp only [List.map_cons]
    have hc : ¬ (c == '+') = true := by
      simp only [beq_iff_eq]
      intro he
      exact h (by simp [he])
    rw [show plusToSpace c = c from by unfold plusToSpace; rw [if_neg hc]]
    rw [ih fun hm => h (by simp [hm])]

theorem unquotePlus_quote (s : List Char) (h : asciiStr s) :
    unquotePlus (quote s) = s := by
  unfold unquotePlus
  rw [map_plusToSpace_id _ (plus_not_mem_quote s), unquote_quote s h]

theorem plus_not_mem_pctEncode (a : Char) : '+' ∉ pctEncode a := by
  unfold pctEncode
  intro hm
  simp only [List.mem_cons, List.not_mem_nil, or_false] at hm
  rcases hm with hm | hm | hm
  · exact absurd hm (by decide)
  · have := hexDigitChar_mem (a.toNat / 16)
    rw [← hm] at this
    exact absurd this (by decide)
  · have := hexDigitChar_mem (a.toNat % 16)
    rw [← hm] at this
    exact absurd this (by decide)

theorem unquotePlus_quotePlus (s : List Char) (h : asciiStr s) :
    unquotePlus (quotePlus s) = s := by
  unfold unquotePlus
  induction s with
  | nil => rfl
  | cons c rest ih =>
    have hc : c.toNat < 128 := h c (by simp)
    have hrest : asciiStr rest := fun d hd => h d (by simp [hd])
    show unquote (((quotePlusChar c ++ quotePlus rest)).map plusToSpace) = c :: rest
    rw [List.map_append]
    unfold quotePlusChar
    by_cases hs : alwaysSafe c = true
    · rw [if_pos hs]
      have hplus : c ≠ '+' := by
        intro he
        subst he
        exact absurd hs (by decide)
      have hpct : c ≠ '%' := by
        intro he
        subst he
        exact absurd hs (by decide)
      rw [show ([c].map plusToSpace) = [c] from by
        simp [plusToSpace, if_neg (by simpa using hplus)]]
      rw [List.singleton_append, unquote_cons_ne c hpct, ih hrest]
    · rw [if_neg hs]
      by_cases hsp : (c == ' ') = true
      · rw [if_pos hsp]
        have hce : c = ' ' := by simpa using hsp
        subst hce
        rw [show (['+'].map plusToSpace) = [' '] from by decide]
        rw [List.singleton_append, unquote_cons_ne ' ' (by decide), ih hrest]
      · rw [if_neg hsp]
        rw [map_plusToSpace_id _ (plus_not_mem_pctEncode c)]
        rw [unquote_pct c hc, ih hrest]

theorem mem_quotePlusChar_props (a c : Char) (hm : c ∈ quotePlusChar a) :
    (c = a ∨ c.toNat < 128) ∧ c ≠ '&' ∧ c ≠ '=' := by
  unfold quotePlusChar at hm
  by_cases hs : alwaysSafe a = true
  · rw [if_pos hs] at hm
    rw [List.mem_singleton] at hm
    subst hm
    refine ⟨Or.inl rfl, ?_, ?_⟩
    · intro he
      subst he
      exact absurd hs (by decide)
    · intro he
      subst he
      exact absurd hs (by decide)
  · rw [if_neg hs] at hm
    by_cases hsp : (a == ' ') = true
    · rw [if_pos hsp] at hm
      rw [List.mem_singleton] at hm
      subst hm
      exact ⟨Or.inr (by decide), by decide, by decide⟩
    · rw [if_neg hsp] at hm
      unfold pctEncode at hm
      have hhex : ∀ d ∈ hexDigits, d.toNat < 128 ∧ d ≠ '&' ∧ d ≠ '=' := by decide
      simp only [List.mem_cons, List.not_mem_nil, or_false] at hm
      rcases hm with hm | hm | hm
      · subst hm
        exact ⟨Or.inr (by decide), by decide, by decide⟩
      · subst hm
        have := hhex _ (hexDigitChar_mem (a.toNat / 16))
        exact ⟨Or.inr this.1, this.2⟩
      · subst hm
        have := hhex _ (hexDigitChar_mem (a.toNat % 16))
        exact ⟨Or.inr this.1, this.2⟩

theorem mem_quotePlus_props (s : List Char) (hascii : asciiStr s) (c : Char)
    (hm : c ∈ quotePlus s) : c.toNat < 128 ∧ c ≠ '&' ∧ c ≠ '=' := by
  unfold quotePlus at hm
  rcases List.mem_flatMap.mp hm with ⟨a, ha, hmem⟩
  have := mem_quotePlusChar_props a c hmem
  refine ⟨?_, this.2⟩
  rcases this.1 with he | hlt
  · subst he
    exact hascii c ha
  · exact hlt

/-! ## Splitting and joining (claim C3 support) -/

theorem splitSep_cons (sep c : Char) (rest : List Char) (g : List Char)
    (gs : List (List Char)) (h : splitSep sep rest = g :: gs) :
    splitSep sep (c :: rest) =
      if c == sep then [] :: g :: gs else (c :: g) :: gs := by
  unfold splitSep
  rw [h]

theorem splitSep_append (sep : Char) (x s : List Char) (g : List Char)
    (gs : List (List Char)) (hx : sep ∉ x) (hs : splitSep sep s = g :: gs) :
    splitSep sep (x ++ s) = (x ++ g) :: gs := by
  induction x with
  | nil => simpa using hs
  | cons c xs ih =>
    have hxs : sep ∉ xs := fun hm => hx (by simp [hm])
    have hcne : ¬ (c == sep) = true := by
      simp only [beq_iff_eq]
      intro he
      exact hx (by simp [he])
    rw [List.cons_append,
      splitSep_cons sep c (xs ++ s) (xs ++ g) gs (ih hxs), if_neg hcne]
    simp

theorem splitSep_of_not_mem (sep : Char) (x : List Char) (h : sep ∉ x) :
    splitSep sep x = [x] := by
  have := splitSep_append sep x [] [] [] h rfl
  simpa using this

theorem splitSep_joinSep (sep : Char) :
    ∀ (l : List (List Char)), l ≠ [] → (∀ x ∈ l, sep ∉ x) →
      splitSep sep (joinSep sep l) = l := by
  intro l
  induction l with
  | nil =>
    intro hl _
    exact absurd rfl hl
  | cons x rest ih =>
    intro _ h
    cases rest with
    | nil =>
      show splitSep sep (joinSep sep [x]) = [x]
      rw [show joinSep sep [x] = x from rfl]
      exact splitSep_of_not_mem sep x (h x (by simp))
    | cons y ys =>
      have hys := ih (by simp) fun z hz => h z (by simp [hz])
      have hsep : splitSep sep (sep :: joinSep sep (y :: ys)) = [] :: y :: ys := by
        rw [splitSep_cons sep sep _ _ _ hys]
        simp
      have happ := splitSep_append sep x (sep :: joinSep sep (y :: ys)) []
        (y :: ys) (h x (by simp)) hsep
      rw [show joinSep sep (x :: y :: ys) = x ++ sep :: joinSep sep (y :: ys)
        from rfl]
      simpa using happ

theorem splitFirstEq_append (a b : List Char) (ha : '=' ∉ a) :
    splitFirstEq (a ++ '=' :: b) = some (a, b) := by
  induction a with
  | nil => simp [splitFirstEq]
  | cons c xs ih =>
    have hc : ¬ (c == '=') = true := by
      simp only [beq_iff_eq]
      intro he
      exact ha (by simp [he])
    rw [List.cons_append]
    unfold splitFirstEq
    rw [if_neg hc, ih fun hm => ha (by simp [hm])]
    rfl

/-! ## `parse_qs` of `urlencode` (claim C3 support) -/

theorem filterMap_fields (q : List (List Char × List Char))
    (hq : ∀ p ∈ q, asciiStr p.1 ∧ asciiStr p.2) :
    ((q.map fun p => quotePlus p.1 ++ '=' :: quotePlus p.2).filterMap
      fun field =>
        if field.isEmpty then none
        else
          match splitFirstEq field with
          | some pr => some (unquotePlus pr.1, unquotePlus pr.2)
          | none => some (unquotePlus field, [])) = q := by
  induction q with
  | nil => rfl
  | cons p rest ih =>
    simp only [List.map_cons, List.filterMap_cons]
    have hemp : (quotePlus p.1 ++ '=' :: quotePlus p.2).isEmpty = false := by
      cases h : quotePlus p.1 <;> rfl
    have hsplit := splitFirstEq_append (quotePlus p.1) (quotePlus p.2)
      fun hm => ((mem_quotePlus_props p.1 (hq p (by simp)).1 '=' hm).2.2) rfl
    rw [hemp, hsplit]
    dsimp only
    rw [unquotePlus_quotePlus _ (hq p (by simp)).1,
      unquotePlus_quotePlus _ (hq p (by simp)).2]
    rw [ih fun r hr => hq r (by simp [hr])]
    rfl

theorem parse_qsl_urlencode (q : List (List Char × List Char))
    (hq : ∀ p ∈ q, asciiStr p.1 ∧ asciiStr p.2) (hne : q ≠ []) :
    parse_qsl (urlencode q) = q := by
  unfold parse_qsl urlencode
  rw [splitSep_joinSep '&' (q.map fun p => quotePlus p.1 ++ '=' :: quotePlus p.2)
    (by simpa using hne) ?_]
  · exact filterMap_fields q hq
  · intro x hx
    rcases List.mem_map.mp hx with ⟨p, hp, rfl⟩
    intro hamp
    rcases List.mem_append.mp hamp with hm | hm
    · exact ((mem_quotePlus_props p.1 (hq p hp).1 '&' hm).2.1) rfl
    · rcases List.mem_cons.mp hm with hm | hm
      · exact absurd hm (by decide)
      · exact ((mem_quotePlus_props p.2 (hq p hp).2 '&' hm).2.1) rfl

theorem addPair_not_mem (k : List Char) (v : List Char)
    (l : List (List Char × List (List Char))) (h : k ∉ l.map Prod.fst) :
    addPair k v l = l ++ [(k, [v])] := by
  induction l with
  | nil => rfl
  | cons p rest ih =>
    have hne : ¬ (p.1 == k) = true := by
      simp only [beq_iff_eq]
      intro he
      exact h (by simp [he])
    rw [addPair_cons, if_neg hne, ih fun hm => h (by simp [hm])]
    rfl

theorem foldl_addPair_acc (l : List (List Char × List Char)) :
    ∀ (acc : List (List Char × List (List Char))),
      (∀ p ∈ l, p.1 ∉ acc.map Prod.fst) → ((l.map Prod.fst).Nodup) →
      l.foldl (fun acc p => addPair p.1 p.2 acc) acc =
        acc ++ l.map fun p => (p.1, [p.2]) := by
  induction l with
  | nil =>
    intro acc _ _
    simp
  | cons p rest ih =>
    intro acc hdisj hnd
    simp only [List.foldl_cons]
    rw [addPair_not_mem p.1 p.2 acc (hdisj p (by simp))]
    simp only [List.map_cons, List.nodup_cons] at hnd
    rw [ih (acc ++ [(p.1, [p.2])]) ?_ hnd.2]
    · simp
    · intro r hr
      simp only [List.map_append, List.mem_append]
      rintro (hm | hm)
      · exact hdisj r (by simp [hr]) hm
      · simp only [List.map_cons, List.map_nil, List.mem_singleton] at hm
        exact hnd.1 (hm ▸ List.mem_map_of_mem _ hr)

theorem parse_qs_of_nodup (l : List (List Char × List Char))
    (h : (l.map Prod.fst).Nodup) :
    l.foldl (fun acc p => addPair p.1 p.2 acc) [] =
      l.map fun p => (p.1, [p.2]) := by
  simpa using foldl_addPair_acc l [] (by simp) h

/-! ## The round trip (claim C3) -/

theorem mem_joinSep (sep : Char) (l : List (List Char)) (c : Char)
    (h : c ∈ joinSep sep l) : c = sep ∨ ∃ x ∈ l, c ∈ x := by
  induction l with
  | nil => simp [joinSep] at h
  | cons x rest ih =>
    cases rest with
    | nil =>
      right
      exact ⟨x, by simp, by simpa [joinSep] using h⟩
    | cons y ys =>
      rw [show joinSep sep (x :: y :: ys) = x ++ sep :: joinSep sep (y :: ys)
        from rfl] at h
      rcases List.mem_append.mp h with hm | hm
      · right
        exact ⟨x, by simp, hm⟩
      · rcases List.mem_cons.mp hm with hm | hm
        · exact Or.inl hm
        · rcases ih hm with hm | ⟨z, hz, hcz⟩
          · exact Or.inl hm
          · right
            exact ⟨z, by simp [hz], hcz⟩

theorem takeWhile_append_all (a b : List Char) (p : Char → Bool)
    (h : ∀ c ∈ a, p c = true) : (a ++ b).takeWhile p = a ++ b.takeWhile p := by
  induction a with
  | nil => simp
  | cons c rest ih =>
    simp only [List.cons_append, List.takeWhile_cons, h c (by simp)]
    simp [ih fun c hc => h c (by simp [hc])]

theorem dropWhile_append_all (a b : List Char) (p : Char → Bool)
    (h : ∀ c ∈ a, p c = true) : (a ++ b).dropWhile p = b.dropWhile p := by
  induction a with
  | nil => simp
  | cons c rest ih =>
    simp only [List.cons_append, List.dropWhile_cons, h c (by simp)]
    simp [ih fun c hc => h c (by simp [hc])]

theorem lstripSlash_no_slash (s : List Char) (h : s.head? ≠ some '/') :
    lstripSlash s = s := by
  cases s with
  | nil => rfl
  | cons c rest =>
    have hc : c ≠ '/' := by
      intro he
      exact h (by rw [he]; rfl)
    rw [lstripSlash.eq_def]
    split
    · rename_i rest' heq
      injection heq with h1 _
      exact absurd h1 hc
    · rfl

/-- Claim C3: round trip - a stream URL produced in proxy-rewrite mode, fed
back through the proxy's query parser, reconstructs the original origin path
and all non-token query parameters exactly.  The hypotheses state the
well-formedness of the decoded origin URL view: the `yarl` path begins with a
single `'/'` and contains no literal `'?'`, the text is ASCII, and
`dict(plex_url.query)` has unique keys. -/
theorem claim3_roundtrip (u : PlexUrl) (hhead : u.path.head? = some '/')
    (hsecond : u.path.tail.head? ≠ some '/') (hqm : '?' ∉ u.path)
    (hpa : asciiStr u.path) (hqa : ∀ p ∈ u.query, asciiStr p.1 ∧ asciiStr p.2)
    (hnd : (u.query.map Prod.fst).Nodup) :
    '/' :: path_part (coerceQ (receivedQ u)) = u.path ∧
    parse_qs (query_part (coerceQ (receivedQ u))) =
      (u.query.filter fun p => p.1 != xPlexToken).map fun p => (p.1, [p.2]) := by
  obtain ⟨pa, qu⟩ := u
  dsimp only at hhead hsecond hqm hpa hqa hnd ⊢
  have hqa' : ∀ p ∈ qu.filter (fun p => p.1 != xPlexToken),
      asciiStr p.1 ∧ asciiStr p.2 := fun p hp => hqa p (List.mem_of_mem_filter hp)
  have hnd' : ((qu.filter fun p => p.1 != xPlexToken).map Prod.fst).Nodup :=
    List.Nodup.sublist (List.Sublist.map Prod.fst (List.filter_sublist qu)) hnd
  have hasciirel : asciiStr (stream_url_relative (PlexUrl.mk pa qu)) := by
    unfold stream_url_relative
    intro c hc
    dsimp only at hc
    rcases List.mem_append.mp hc with hm | hm
    · exact hpa c hm
    · by_cases hq0 : (qu.filter fun p => p.1 != xPlexToken).isEmpty = true
      · rw [if_pos hq0] at hm
        simp at hm
      · rw [if_neg hq0] at hm
        rcases List.mem_cons.mp hm with hm | hm
        · subst hm
          decide
        · unfold urlencode at hm
          rcases mem_joinSep '&' _ c hm with hm | ⟨x, hx, hcx⟩
          · subst hm
            decide
          · rcases List.mem_map.mp hx with ⟨p, hp, rfl⟩
            rcases List.mem_append.mp hcx with hm2 | hm2
            · exact (mem_quotePlus_props p.1 (hqa' p hp).1 c hm2).1
            · rcases List.mem_cons.mp hm2 with hm2 | hm2
              · subst hm2
                decide
              · exact (mem_quotePlus_props p.2 (hqa' p hp).2 c hm2).1
  have hrecv : receivedQ (PlexUrl.mk pa qu) =
      stream_url_relative (PlexUrl.mk pa qu) := by
    unfold receivedQ stream_url_q
    exact unquotePlus_quote _ hasciirel
  rcases pa with _ | ⟨c0, p'⟩
  · simp at hhead
  have hc0 : c0 = '/' := by simpa using hhead
  subst hc0
  have hp' : p'.head? ≠ some '/' := by simpa using hsecond
  have hpred : ∀ c ∈ ('/' :: p'), (c != '?') = true := by
    intro c hcm
    simp only [bne_iff_ne, ne_eq]
    intro he
    subst he
    exact hqm hcm
  rw [hrecv]
  by_cases hq0 : (qu.filter fun p => p.1 != xPlexToken).isEmpty = true
  · have hqnil : qu.filter (fun p => p.1 != xPlexToken) = [] := by
      simpa using hq0
    have hrel : stream_url_relative (PlexUrl.mk ('/' :: p') qu) = '/' :: p' := by
      unfold stream_url_relative
      dsimp only
      rw [if_pos hq0]
      simp
    rw [hrel]
    have hcoe : coerceQ ('/' :: p') = '/' :: p' := rfl
    rw [hcoe]
    constructor
    · unfold path_part
      have htw : ('/' :: p').takeWhile (fun c => c != '?') = '/' :: p' := by
        have := takeWhile_append_all ('/' :: p') [] (fun c => c != '?') hpred
        simpa using this
      rw [htw]
      rw [show lstripSlash ('/' :: p') = lstripSlash p' from rfl,
        lstripSlash_no_slash p' hp']
    · unfold query_part
      have hdw : ('/' :: p').dropWhile (fun c => c != '?') = [] := by
        have := dropWhile_append_all ('/' :: p') [] (fun c => c != '?') hpred
        simpa using this
      rw [hdw, hqnil]
      rfl
  · have hqne : qu.filter (fun p => p.1 != xPlexToken) ≠ [] := by
      intro h0
      rw [h0] at hq0
      exact hq0 rfl
    have hrel : stream_url_relative (PlexUrl.mk ('/' :: p') qu) =
        ('/' :: p') ++ '?' :: urlencode (qu.filter fun p => p.1 != xPlexToken) := by
      unfold stream_url_relative
      dsimp only
      rw [if_neg hq0]
    rw [hrel]
    have hcoe : coerceQ (('/' :: p') ++
        '?' :: urlencode (qu.filter fun p => p.1 != xPlexToken)) =
        ('/' :: p') ++ '?' :: urlencode (qu.filter fun p => p.1 != xPlexToken) :=
      rfl
    rw [hcoe]
    constructor
    · unfold path_part
      rw [takeWhile_append_all _ _ _ hpred]
      rw [show (('?' :: urlencode (qu.filter fun p => p.1 != xPlexToken)).takeWhile
        (fun c => c != '?')) = [] from by simp [List.takeWhile_cons]]
      rw [List.append_nil]
      rw [show lstripSlash ('/' :: p') = lstripSlash p' from rfl,
        lstripSlash_no_slash p' hp']
    · unfold query_part
      rw [dropWhile_append_all _ _ _ hpred]
      rw [show (('?' :: urlencode (qu.filter fun p => p.1 != xPlexToken)).dropWhile
        (fun c => c != '?')) =
        '?' :: urlencode (qu.filter fun p => p.1 != xPlexToken) from by
          simp [List.dropWhile_cons]]
      unfold parse_qs
      rw [parse_qsl_urlencode _ hqa' hqne]
      exact parse_qs_of_nodup _ hnd'

theorem claim3_witness :
    '/' :: path_part (coerceQ (receivedQ (PlexUrl.mk
        "/library/parts/1/file.mkv".toList
        [("quality".toList, "high".toList), (xPlexToken, "secret".toList)]))) =
      "/library/parts/1/file.mkv".toList ∧
    parse_qs (query_part (coerceQ (receivedQ (PlexUrl.mk
        "/library/parts/1/file.mkv".toList
        [("quality".toList, "high".toList), (xPlexToken, "secret".toList)])))) =
      (([("quality".toList, "high".toList),
        (xPlexToken, "secret".toList)].filter fun p => p.1 != xPlexToken).map
        fun p => (p.1, [p.2])) :=
  claim3_roundtrip
    (PlexUrl.mk "/library/parts/1/file.mkv".toList
      [("quality".toList, "high".toList), (xPlexToken, "secret".toList)])
    (by decide) (by decide) (by decide) (by decide) (by decide) (by decide)

end Plexio
